import Mathlib

/-!
# QuickBot-Go workflow engine: a shallow embedding

This file embeds the workflow execution engine of
`internal/workflow/workflow.go` and proves the specification's claims
about it.

Modelling conventions:
* Go `map[string]T` values are modelled as association lists
  (`List (String × T)`) with Go's overwrite-on-assign semantics
  (`mapSet`) and `List.lookup` for reads.
* Go `interface{}` result values are modelled by the inductive `Value`.
* The numeric `iterations` configuration field is read in Go as a
  `float64` and truncated with `int(...)`; the configurations the spec
  exercises are small naturals, so it is modelled as a `Nat`.
* Go map iteration order is unspecified; the resolver model scans the
  remaining steps in definition order, one faithful resolution of that
  nondeterminism.  Log output, wall-clock timestamps and generated
  execution ids are not modelled.
* The `sync.WaitGroup` fan-out in `executeParallelStep` is modelled by
  its collected aggregate: the branch count is a parameter
  (`parallelAggregate`), instantiated at the source's hard-coded 3.
-/

namespace QuickBot

/-- Go `interface{}` values produced by step handlers. -/
inductive Value where
  | str : String → Value
  | boolV : Bool → Value
  | vlist : List Value → Value
  | vmap : List (String × Value) → Value
deriving Repr

/-- Go map assignment `m[k] = v`: overwrite the binding if the key is
present, otherwise add it. -/
def mapSet {α : Type} (m : List (String × α)) (k : String) (v : α) :
    List (String × α) :=
  match m with
  | [] => [(k, v)]
  | (k', v') :: rest =>
    if k' = k then (k, v) :: rest else (k', v') :: mapSet rest k v

/-- The type-specific configuration bag of a step.  Each field models one
`step.Config[...]` type assertion in the source; `none` models a missing
key or a failed assertion (Go then yields the zero value, `Option.getD`
below). -/
structure StepConfig where
  name : Option String := none
  condition : Option String := none
  iterations : Option Nat := none
  message : Option String := none
  tool : Option String := none
  args : Option (List (String × Value)) := none
deriving Repr

/-- `WorkflowStep` of the source. -/
structure WorkflowStep where
  id : String
  name : String
  type : String
  config : StepConfig
  onError : String
  dependencies : List String
deriving Repr

/-- `Workflow` of the source. -/
structure Workflow where
  id : String
  name : String
  description : String
  steps : List WorkflowStep
  vars : List (String × Value)  -- the `Variables` bag (`variables` is reserved in Lean)
  status : String
deriving Repr

/-- The error taxonomy of the engine (`fmt.Errorf` values it builds). -/
inductive WFError where
  | unknownStepType : String → WFError
  | cyclicOrUnmet : WFError
  | notFound : String → WFError
deriving Repr, DecidableEq

/-- `executeTaskStep`. -/
def executeTaskStep (_w : Workflow) (step : WorkflowStep) : Value :=
  .str ("Task executed: " ++ step.config.name.getD "")

/-- `executeConditionStep`.  Both branches of the source return the same
map; the branch on the empty condition is kept. -/
def executeConditionStep (_w : Workflow) (step : WorkflowStep) : Value :=
  let condition := step.config.condition.getD ""
  if condition = "" then
    .vmap [("condition_met", .boolV true), ("value", .str condition)]
  else
    .vmap [("condition_met", .boolV true), ("value", .str condition)]

/-- `executeLoopStep`. -/
def executeLoopStep (_w : Workflow) (step : WorkflowStep) : Value :=
  let iterations := step.config.iterations.getD 0
  .vlist ((List.range iterations).map
    (fun i => .str ("Loop iteration " ++ toString (i + 1))))

/-- The output of one branch of the parallel fan-out. -/
def parallelBranchOutput (idx : Nat) : Value :=
  .str ("Parallel task " ++ toString (idx + 1) ++ " completed")

/-- The aggregate `executeParallelStep` collects for a given branch
count: one output per branch.  Concurrent completion order is abstracted;
the aggregate is listed in branch order. -/
def parallelAggregate (taskCount : Nat) : List Value :=
  (List.range taskCount).map parallelBranchOutput

/-- The branch count hard-coded in `executeParallelStep`
(`taskCount := 3 // Example`). -/
def sourceTaskCount : Nat := 3

/-- `executeParallelStep`. -/
def executeParallelStep (_w : Workflow) (_step : WorkflowStep) : Value :=
  .vlist (parallelAggregate sourceTaskCount)

/-- `executeChatStep`. -/
def executeChatStep (_w : Workflow) (step : WorkflowStep) : Value :=
  .str ("Chat response: " ++ step.config.message.getD "")

/-- `executeToolStep`. -/
def executeToolStep (_w : Workflow) (step : WorkflowStep) : Value :=
  let toolName := step.config.tool.getD ""
  let toolArgs := step.config.args.getD []
  .vmap [("tool", .str toolName),
         ("args", .vmap toolArgs),
         ("result", .str ("Tool " ++ toolName ++ " executed"))]

/-- Modelled from the spec: the step-type constant `loop` matched by
`executeStep`'s dispatch is declared outside the source files provided;
the spec lists the step type Loop alongside the literal lowercase strings
`"task"`, `"condition"`, `"parallel"`, `"chat"`, `"tool"`. -/
def loop : String := "loop"

/-- `executeStep`: dispatch on the step type; unknown types fail with an
`UnknownStepType` error.  (The bookkeeping the Go function also performs,
recording the step result keyed by the execution id, is done by the
resolver model below on the `.ok` branch.) -/
def executeStep (w : Workflow) (step : WorkflowStep) : Except WFError Value :=
  if step.type = "task" then .ok (executeTaskStep w step)
  else if step.type = "condition" then .ok (executeConditionStep w step)
  else if step.type = loop then .ok (executeLoopStep w step)
  else if step.type = "parallel" then .ok (executeParallelStep w step)
  else if step.type = "chat" then .ok (executeChatStep w step)
  else if step.type = "tool" then .ok (executeToolStep w step)
  else .error (.unknownStepType step.type)

/-- The six step types `executeStep` handles. -/
def knownType (ty : String) : Bool :=
  ty = "task" || ty = "condition" || ty = loop || ty = "parallel" ||
  ty = "chat" || ty = "tool"

/-- The `switch step.OnError` of `executeSteps`: only `"stop"` and the
empty (unset) policy abort the run; `"continue"`, `"retry"` and any other
string fall through. -/
def stopsOnError (onError : String) : Bool :=
  onError = "stop" || onError = ""

/-- A step is runnable when every declared dependency is already in the
executed set (the `canExecute` check of `executeSteps`). -/
def depsMet (executed : List String) (step : WorkflowStep) : Bool :=
  step.dependencies.all (fun d => executed.contains d)

/-- The per-run execution state the resolver mutates: the
`execution.StepStatus` map and the engine's per-execution
`stepResults` map. -/
structure RunState where
  stepStatus : List (String × String)
  stepResults : List (String × Value)
deriving Repr

/-- The outcome of one dispatched step. -/
inductive StepOutcome where
  | success : Value → StepOutcome
  | failure : WFError → StepOutcome
deriving Repr

/-- One dispatch event of a run: the step handed to `executeStep`, the
executed set at the moment of dispatch, and the handler outcome.  The
trace is proof instrumentation for ordering properties; it carries no
information the run does not compute. -/
structure TraceEntry where
  step : WorkflowStep
  executedBefore : List String
  outcome : StepOutcome
deriving Repr

/-- The result of one scan over the remaining steps (one iteration of the
inner `for id, step := range remainingSteps` loop of `executeSteps`). -/
structure PassResult where
  err : Option WFError
  remaining : List WorkflowStep
  executed : List String
  state : RunState
  progress : Bool
  trace : List TraceEntry
deriving Repr

/-- One full scan of the remaining steps, in order: each runnable step is
dispatched; on success (or a tolerated failure) it is marked, moved to
the executed set and removed; a failure under a stopping policy aborts
the whole run at once (`return err` in the source). -/
def runPass (w : Workflow) :
    List WorkflowStep → List String → RunState → PassResult
  | [], executed, st =>
    { err := none, remaining := [], executed := executed, state := st,
      progress := false, trace := [] }
  | step :: rest, executed, st =>
    if depsMet executed step then
      match executeStep w step with
      | .ok result =>
        let st' : RunState :=
          { stepStatus := mapSet st.stepStatus step.id "completed",
            stepResults := mapSet st.stepResults step.id result }
        let pr := runPass w rest (step.id :: executed) st'
        { pr with progress := true,
                  trace := ⟨step, executed, .success result⟩ :: pr.trace }
      | .error e =>
        let st' : RunState :=
          { st with stepStatus := mapSet st.stepStatus step.id "failed" }
        if stopsOnError step.onError then
          { err := some e, remaining := rest, executed := executed,
            state := st', progress := true,
            trace := [⟨step, executed, .failure e⟩] }
        else
          let pr := runPass w rest (step.id :: executed) st'
          { pr with progress := true,
                    trace := ⟨step, executed, .failure e⟩ :: pr.trace }
    else
      let pr := runPass w rest executed st
      { pr with remaining := step :: pr.remaining }

/-- The observables of a finished run. -/
structure RunOutcome where
  state : RunState
  executed : List String
  err : Option WFError
  trace : List TraceEntry
deriving Repr

/-- The outer `for len(remainingSteps) > 0` loop of `executeSteps`:
repeat passes until no step remains; a pass that aborts propagates its
error; a full pass with no progress while steps remain fails with the
`workflow stuck: circular dependencies or unmet dependencies` error. -/
def runLoop (w : Workflow) (remaining : List WorkflowStep)
    (executed : List String) (st : RunState) : RunOutcome :=
  if h : remaining.isEmpty then
    { state := st, executed := executed, err := none, trace := [] }
  else
    let pr := runPass w remaining executed st
    match he : pr.err with
    | some e =>
      { state := pr.state, executed := pr.executed, err := some e,
        trace := pr.trace }
    | none =>
      if hp : pr.progress then
        let out := runLoop w pr.remaining pr.executed pr.state
        { out with trace := pr.trace ++ out.trace }
      else
        { state := pr.state, executed := pr.executed,
          err := some .cyclicOrUnmet, trace := pr.trace }
termination_by remaining.length
decreasing_by
  have key : ∀ (rem : List WorkflowStep) (ex : List String) (s : RunState),
      (runPass w rem ex s).remaining.length ≤ rem.length ∧
        ((runPass w rem ex s).progress = true →
          (runPass w rem ex s).remaining.length < rem.length) := by
    intro rem
    induction rem with
    | nil => intro ex s; simp [runPass]
    | cons step rest ih =>
      intro ex s
      constructor
      · simp only [runPass]
        split
        · split
          · exact Nat.le_succ_of_le (ih _ _).1
          · split
            · exact Nat.le_succ _
            · exact Nat.le_succ_of_le (ih _ _).1
        · simpa using Nat.succ_le_succ (ih _ _).1
      · intro hprog
        simp only [runPass] at hprog ⊢
        by_cases hdeps : depsMet ex step = true
        · rw [if_pos hdeps]
          split
          · exact Nat.lt_succ_of_le (ih _ _).1
          · split
            · exact Nat.lt_succ_of_le (Nat.le_refl _)
            · exact Nat.lt_succ_of_le (ih _ _).1
        · rw [if_neg hdeps] at hprog ⊢
          have := (ih ex s).2 hprog
          simpa using Nat.succ_lt_succ this
  exact (key remaining executed st).2 hp

/-- `executeSteps`: run the resolver from the workflow's step list with
empty executed set and empty state. -/
def executeSteps (w : Workflow) : RunOutcome :=
  runLoop w w.steps [] ⟨[], []⟩

/-- The dispatch trace of a run. -/
def execTrace (w : Workflow) : List TraceEntry :=
  (executeSteps w).trace

/-- The resolver loop bounded by an explicit pass budget; `none` means
the budget ran out before the loop finished.  Used to state that the
unbounded loop of the source terminates within `steps + 1` passes. -/
def runLoopFuel (w : Workflow) :
    Nat → List WorkflowStep → List String → RunState → Option RunOutcome
  | 0, _, _, _ => none
  | fuel + 1, remaining, executed, st =>
    if remaining.isEmpty then
      some { state := st, executed := executed, err := none, trace := [] }
    else
      let pr := runPass w remaining executed st
      match pr.err with
      | some e =>
        some { state := pr.state, executed := pr.executed, err := some e,
               trace := pr.trace }
      | none =>
        if pr.progress then
          match runLoopFuel w fuel pr.remaining pr.executed pr.state with
          | none => none
          | some out => some { out with trace := pr.trace ++ out.trace }
        else
          some { state := pr.state, executed := pr.executed,
                 err := some .cyclicOrUnmet, trace := pr.trace }

/-- The result record of one `ExecuteWorkflow` call, restricted to the
fields the run determines (wall-clock times and the generated execution
id are not modelled). -/
structure ExecResult where
  workflowID : String
  status : String
  stepStatus : List (String × String)
  outputs : List (String × Value)
  err : Option WFError
deriving Repr

/-- The variable merge of `ExecuteWorkflow`
(`for k, v := range variables { workflow.Variables[k] = v }`). -/
def mergeVars (base incoming : List (String × Value)) :
    List (String × Value) :=
  incoming.foldl (fun acc kv => mapSet acc kv.1 kv.2) base

/-- The body of `ExecuteWorkflow` after a successful lookup: merge the
caller's variables, run the resolver, finalize the status. -/
def runWorkflow (w : Workflow) (vars : List (String × Value)) : ExecResult :=
  let w' := { w with vars := mergeVars w.vars vars }
  let out := executeSteps w'
  { workflowID := w.id,
    status := if out.err.isSome then "failed" else "completed",
    stepStatus := out.state.stepStatus,
    outputs := out.state.stepResults,
    err := out.err }

/-- `ExecuteWorkflow`: the call-level result.  The only call-level error
is the `workflow not found` lookup failure; a failed run is still a
`.ok` record. -/
def ExecuteWorkflow (reg : List (String × Workflow)) (workflowID : String)
    (vars : List (String × Value)) : Except WFError ExecResult :=
  match reg.lookup workflowID with
  | none => .error (.notFound workflowID)
  | some w => .ok (runWorkflow w vars)

/-- `RegisterWorkflow`.  `genId` stands for the wall-clock
`generateWorkflowID()` used when the supplied id is empty.  The
definition is stored under its id and then under its name; the call
always returns a nil error. -/
def RegisterWorkflow (genId : String) (reg : List (String × Workflow))
    (w : Workflow) : List (String × Workflow) × Option WFError :=
  let w' := if w.id = "" then { w with id := genId } else w
  (mapSet (mapSet reg w'.id w') w'.name w', none)

/-- `ListWorkflows`: every value in the workflow registry. -/
def ListWorkflows (reg : List (String × Workflow)) : List Workflow :=
  reg.map Prod.snd

/-- The per-step status string the resolver records for an outcome
(`"completed"` on handler success, `"failed"` on handler error). -/
def statusOf : StepOutcome → String
  | .success _ => "completed"
  | .failure _ => "failed"

/-- A dispatch that aborted the run: a handler failure on a step whose
error policy stops execution. -/
def isStopFailure (t : TraceEntry) : Bool :=
  match t.outcome with
  | .success _ => false
  | .failure _ => stopsOnError t.step.onError

/-- Rewrite one step's `"retry"` error policy to `"continue"`. -/
def retryToContinueStep (s : WorkflowStep) : WorkflowStep :=
  { s with onError := if s.onError = "retry" then "continue" else s.onError }

/-- Rewrite the `"retry"` error policy to `"continue"` on every step. -/
def retryToContinue (w : Workflow) : Workflow :=
  { w with steps := w.steps.map retryToContinueStep }

/-- Register a list of workflows, in order, into a registry. -/
def registerAll (ws : List Workflow) (reg : List (String × Workflow)) :
    List (String × Workflow) :=
  ws.foldl (fun acc w => (RegisterWorkflow "generated" acc w).1) reg

/-! ## Concrete fixtures used by the witness theorems -/

/-- A plain task step with no dependencies. -/
def stepA : WorkflowStep :=
  { id := "A", name := "First", type := "task",
    config := { name := some "Task 1" }, onError := "", dependencies := [] }

/-- A task step that depends on `"A"`. -/
def stepB : WorkflowStep :=
  { id := "B", name := "Second", type := "task",
    config := { name := some "Task 2" }, onError := "",
    dependencies := ["A"] }

/-- A task step that depends on `"A"` and on the nonexistent id
`"Z"`. -/
def stepBZ : WorkflowStep :=
  { id := "B", name := "Second", type := "task",
    config := { name := some "Task 2" }, onError := "",
    dependencies := ["A", "Z"] }

/-- A step of an unhandled type with the default (stop) policy. -/
def mysteryStop : WorkflowStep :=
  { id := "A", name := "Mystery", type := "mystery", config := {},
    onError := "", dependencies := [] }

/-- A step of an unhandled type with the continue policy. -/
def mysteryContinue : WorkflowStep :=
  { id := "A", name := "Mystery", type := "mystery", config := {},
    onError := "continue", dependencies := [] }

/-- A step of an unhandled type with the retry policy. -/
def mysteryRetry : WorkflowStep :=
  { id := "A", name := "Mystery", type := "mystery", config := {},
    onError := "retry", dependencies := [] }

/-- A step that depends on its own id. -/
def selfStep : WorkflowStep :=
  { id := "S", name := "Self", type := "task", config := {},
    onError := "", dependencies := ["S"] }

/-- A loop step configured for three iterations. -/
def loopStep3 : WorkflowStep :=
  { id := "L", name := "Loop", type := loop,
    config := { iterations := some 3 }, onError := "", dependencies := [] }

/-- A parallel step. -/
def parStep : WorkflowStep :=
  { id := "P", name := "Par", type := "parallel", config := {},
    onError := "", dependencies := [] }

/-- A workflow shell around a step list. -/
def mkWf (steps : List WorkflowStep) : Workflow :=
  { id := "wf-1", name := "Fixture", description := "", steps := steps,
    vars := [], status := "" }

/-- Two-step chain `A → B`, both tasks. -/
def chainWf : Workflow := mkWf [stepA, stepB]

/-- `A` fails (unknown type) under the default stop policy; `B` depends
on it. -/
def stopWf : Workflow := mkWf [mysteryStop, stepB]

/-- `A` fails (unknown type) under the continue policy; `B` depends on
it. -/
def contWf : Workflow := mkWf [mysteryContinue, stepB]

/-- `A` fails (unknown type) under the retry policy; `B` depends on
it. -/
def retryWf : Workflow := mkWf [mysteryRetry, stepB]

/-- `A` fails (unknown type) under the continue policy; `B` depends on
`A` and on the nonexistent id `Z`. -/
def badContWf : Workflow := mkWf [mysteryContinue, stepBZ]

/-- A single step depending on its own id. -/
def selfDepWf : Workflow := mkWf [selfStep]

/-- Distinct-key fixtures for the registry claims. -/
def wfOne : Workflow :=
  { id := "id-1", name := "name-1", description := "", steps := [],
    vars := [], status := "" }

def wfTwo : Workflow :=
  { id := "id-2", name := "name-2", description := "", steps := [],
    vars := [], status := "" }

/-! ## Structural lemmas about the resolver -/

/-- A pass never grows the remaining list. -/
theorem runPass_remaining_le (w : Workflow) (rem : List WorkflowStep)
    (executed : List String) (st : RunState) :
    (runPass w rem executed st).remaining.length ≤ rem.length := by
  induction rem generalizing executed st with
  | nil => simp [runPass]
  | cons step rest ih =>
    simp only [runPass]
    split
    · split
      · exact Nat.le_succ_of_le (ih _ _)
      · split
        · exact Nat.le_succ _
        · exact Nat.le_succ_of_le (ih _ _)
    · simpa using Nat.succ_le_succ (ih _ _)

/-- A pass that reports progress strictly shrank the remaining list. -/
theorem runPass_remaining_lt (w : Workflow) (rem : List WorkflowStep)
    (executed : List String) (st : RunState)
    (h : (runPass w rem executed st).progress = true) :
    (runPass w rem executed st).remaining.length < rem.length := by
  induction rem generalizing executed st with
  | nil => simp [runPass] at h
  | cons step rest ih =>
    simp only [runPass] at h ⊢
    by_cases hdeps : depsMet executed step = true
    · rw [if_pos hdeps]
      split
      · exact Nat.lt_succ_of_le (runPass_remaining_le w rest _ _)
      · split
        · exact Nat.lt_succ_of_le (Nat.le_refl _)
        · exact Nat.lt_succ_of_le (runPass_remaining_le w rest _ _)
    · rw [if_neg hdeps] at h ⊢
      have := ih executed st h
      simpa using Nat.succ_lt_succ this


/-- The remaining list after a pass is a sublist of what it started
from. -/
theorem runPass_remaining_sublist (w : Workflow) (rem : List WorkflowStep)
    (executed : List String) (st : RunState) :
    (runPass w rem executed st).remaining.Sublist rem := by
  induction rem generalizing executed st with
  | nil => simp [runPass]
  | cons step rest ih =>
    simp only [runPass]
    split
    · split
      · exact List.Sublist.cons step (ih _ _)
      · split
        · exact List.Sublist.cons step (List.Sublist.refl rest)
        · exact List.Sublist.cons step (ih _ _)
    · exact List.Sublist.cons₂ step (ih _ _)

/-- Every step a pass dispatches came from its remaining list. -/
theorem runPass_trace_mem (w : Workflow) (rem : List WorkflowStep)
    (executed : List String) (st : RunState) :
    ∀ t ∈ (runPass w rem executed st).trace, t.step ∈ rem := by
  induction rem generalizing executed st with
  | nil => simp [runPass]
  | cons step rest ih =>
    simp only [runPass]
    split
    · split
      · intro t ht
        rcases List.mem_cons.mp ht with h | h
        · simp [h]
        · exact List.mem_cons_of_mem _ (ih _ _ t h)
      · split
        · intro t ht
          rcases List.mem_singleton.mp ht with rfl
          simp
        · intro t ht
          rcases List.mem_cons.mp ht with h | h
          · simp [h]
          · exact List.mem_cons_of_mem _ (ih _ _ t h)
    · intro t ht
      exact List.mem_cons_of_mem _ (ih _ _ t ht)

/-- A step of one of the six handled types is dispatched to its handler
and cannot fail. -/
theorem executeStep_known (w : Workflow) (s : WorkflowStep)
    (h : knownType s.type = true) : ∃ v, executeStep w s = .ok v := by
  simp only [knownType, Bool.or_eq_true, decide_eq_true_eq] at h
  simp only [executeStep]
  rcases h with ((((h | h) | h) | h) | h) | h <;> simp [h, loop]

/-- A step of an unhandled type fails with the `unknown step type`
error. -/
theorem executeStep_unknown (w : Workflow) (s : WorkflowStep)
    (h : knownType s.type = false) :
    executeStep w s = .error (.unknownStepType s.type) := by
  simp only [knownType, Bool.or_eq_false_iff, decide_eq_false_iff_not] at h
  obtain ⟨⟨⟨⟨⟨h1, h2⟩, h3⟩, h4⟩, h5⟩, h6⟩ := h
  simp [executeStep, h1, h2, h3, h4, h5, h6]

/-- `executeStep` errors exactly on unknown step types. -/
theorem executeStep_error_iff (w : Workflow) (s : WorkflowStep)
    (e : WFError) :
    executeStep w s = .error e ↔
      knownType s.type = false ∧ e = .unknownStepType s.type := by
  constructor
  · intro h
    cases hk : knownType s.type with
    | true =>
      obtain ⟨v, hv⟩ := executeStep_known w s hk
      rw [hv] at h
      exact absurd h (by simp)
    | false =>
      have := executeStep_unknown w s hk
      rw [this] at h
      exact ⟨rfl, (Except.error.injEq _ _ ▸ h.symm : _)⟩
  · rintro ⟨hk, rfl⟩
    exact executeStep_unknown w s hk

/-- A pass aborts with error `e` only because some remaining step with a
stopping error policy failed with `e` in its handler. -/
theorem runPass_err_elim (w : Workflow) (rem : List WorkflowStep)
    (executed : List String) (st : RunState) (e : WFError)
    (h : (runPass w rem executed st).err = some e) :
    ∃ s ∈ rem, stopsOnError s.onError = true ∧
      executeStep w s = .error e := by
  induction rem generalizing executed st with
  | nil => simp [runPass] at h
  | cons step rest ih =>
    simp only [runPass] at h
    split at h
    · split at h
      · obtain ⟨s, hs, h1, h2⟩ := ih _ _ h
        exact ⟨s, List.mem_cons_of_mem _ hs, h1, h2⟩
      · split at h
        · rename_i e' he' hstop
          have he2 : e' = e := by simpa using h
          exact ⟨step, List.mem_cons_self step rest, hstop, he2 ▸ he'⟩
        · obtain ⟨s, hs, h1, h2⟩ := ih _ _ h
          exact ⟨s, List.mem_cons_of_mem _ hs, h1, h2⟩
    · obtain ⟨s, hs, h1, h2⟩ := ih _ _ h
      exact ⟨s, List.mem_cons_of_mem _ hs, h1, h2⟩

/-- When every remaining step has a handled type, a pass cannot abort. -/
theorem runPass_err_none_of_known (w : Workflow) (rem : List WorkflowStep)
    (executed : List String) (st : RunState)
    (h : ∀ t ∈ rem, knownType t.type = true) :
    (runPass w rem executed st).err = none := by
  cases he : (runPass w rem executed st).err with
  | none => rfl
  | some e =>
    obtain ⟨s, hs, _, herr⟩ := runPass_err_elim w rem executed st e he
    obtain ⟨v, hv⟩ := executeStep_known w s (h s hs)
    rw [hv] at herr
    exact absurd herr (by simp)

/-! Equation lemmas for `runLoop`, one per branch. -/

theorem runLoop_empty (w : Workflow) (remaining : List WorkflowStep)
    (executed : List String) (st : RunState)
    (h : remaining.isEmpty = true) :
    runLoop w remaining executed st =
      { state := st, executed := executed, err := none, trace := [] } := by
  rw [runLoop]
  simp [h]

theorem runLoop_passErr (w : Workflow) (remaining : List WorkflowStep)
    (executed : List String) (st : RunState) (e : WFError)
    (h : ¬remaining.isEmpty = true)
    (he : (runPass w remaining executed st).err = some e) :
    runLoop w remaining executed st =
      { state := (runPass w remaining executed st).state,
        executed := (runPass w remaining executed st).executed,
        err := some e,
        trace := (runPass w remaining executed st).trace } := by
  rw [runLoop, dif_neg h]
  dsimp only
  split
  · rename_i e' he'
    rw [he] at he'
    obtain rfl : e = e' := by simpa using he'
    rfl
  · rename_i he'
    rw [he] at he'
    exact absurd he' (by simp)

theorem runLoop_progress (w : Workflow) (remaining : List WorkflowStep)
    (executed : List String) (st : RunState)
    (h : ¬remaining.isEmpty = true)
    (he : (runPass w remaining executed st).err = none)
    (hp : (runPass w remaining executed st).progress = true) :
    runLoop w remaining executed st =
      { runLoop w (runPass w remaining executed st).remaining
          (runPass w remaining executed st).executed
          (runPass w remaining executed st).state with
        trace := (runPass w remaining executed st).trace ++
          (runLoop w (runPass w remaining executed st).remaining
            (runPass w remaining executed st).executed
            (runPass w remaining executed st).state).trace } := by
  rw [runLoop, dif_neg h]
  dsimp only
  split
  · rename_i e' he'
    rw [he] at he'
    exact absurd he' (by simp)
  · rw [dif_pos hp]

theorem runLoop_stuck (w : Workflow) (remaining : List WorkflowStep)
    (executed : List String) (st : RunState)
    (h : ¬remaining.isEmpty = true)
    (he : (runPass w remaining executed st).err = none)
    (hp : ¬(runPass w remaining executed st).progress = true) :
    runLoop w remaining executed st =
      { state := (runPass w remaining executed st).state,
        executed := (runPass w remaining executed st).executed,
        err := some .cyclicOrUnmet,
        trace := (runPass w remaining executed st).trace } := by
  rw [runLoop, dif_neg h]
  dsimp only
  split
  · rename_i e' he'
    rw [he] at he'
    exact absurd he' (by simp)
  · rw [dif_neg hp]

/-- `steps + 1` passes of budget are enough: the bounded loop finishes
and agrees with the unbounded one. -/
theorem runLoopFuel_adequate (w : Workflow) (fuel : Nat)
    (rem : List WorkflowStep) (executed : List String) (st : RunState)
    (h : rem.length < fuel) :
    runLoopFuel w fuel rem executed st = some (runLoop w rem executed st) := by
  induction fuel generalizing rem executed st with
  | zero => exact absurd h (Nat.not_lt_zero _)
  | succ n ih =>
    simp only [runLoopFuel]
    by_cases hemp : rem.isEmpty
    · rw [if_pos hemp, runLoop_empty w rem executed st hemp]
    · rw [if_neg hemp]
      cases he : (runPass w rem executed st).err with
      | some e =>
        rw [runLoop_passErr w rem executed st e hemp he]
      | none =>
        by_cases hp : (runPass w rem executed st).progress = true
        · rw [if_pos hp]
          have hlt : (runPass w rem executed st).remaining.length < n := by
            have h1 := runPass_remaining_lt w rem executed st hp
            omega
          rw [ih _ _ _ hlt, runLoop_progress w rem executed st hemp he hp]
        · rw [if_neg hp, runLoop_stuck w rem executed st hemp he hp]

/-- Every step a pass dispatches had its full dependency set inside the
executed set recorded at dispatch time. -/
theorem runPass_trace_deps (w : Workflow) (rem : List WorkflowStep)
    (executed : List String) (st : RunState) :
    ∀ t ∈ (runPass w rem executed st).trace,
      depsMet t.executedBefore t.step = true := by
  induction rem generalizing executed st with
  | nil => simp [runPass]
  | cons step rest ih =>
    simp only [runPass]
    split
    · rename_i hdeps
      split
      · intro t ht
        rcases List.mem_cons.mp ht with rfl | h
        · exact hdeps
        · exact ih _ _ t h
      · split
        · intro t ht
          rcases List.mem_singleton.mp ht with rfl
          exact hdeps
        · intro t ht
          rcases List.mem_cons.mp ht with rfl | h
          · exact hdeps
          · exact ih _ _ t h
    · intro t ht
      exact ih _ _ t ht

/-- In a run, every step is dispatched only after all of its
dependencies entered the executed set. -/
theorem runLoop_trace_deps (w : Workflow) (rem : List WorkflowStep)
    (executed : List String) (st : RunState) :
    ∀ t ∈ (runLoop w rem executed st).trace,
      depsMet t.executedBefore t.step = true := by
  induction rem, executed, st using runLoop.induct w with
  | case1 rem executed st hemp =>
    rw [runLoop_empty w rem executed st hemp]
    simp
  | case2 rem executed st hemp pr e he =>
    rw [runLoop_passErr w rem executed st e hemp he]
    exact runPass_trace_deps w rem executed st
  | case3 rem executed st hemp pr he hp ih =>
    rw [runLoop_progress w rem executed st hemp he hp]
    intro t ht
    rcases List.mem_append.mp ht with h | h
    · exact runPass_trace_deps w rem executed st t h
    · exact ih t h
  | case4 rem executed st hemp pr he hp =>
    rw [runLoop_stuck w rem executed st hemp he hp]
    exact runPass_trace_deps w rem executed st

/-- A dependency id `d` such that every step carrying id `d` itself
depends on `d` can never enter the executed set during a pass. -/
theorem runPass_d_not_executed (w : Workflow) (d : String)
    (rem : List WorkflowStep) (executed : List String) (st : RunState)
    (hd : d ∉ executed)
    (hall : ∀ t ∈ rem, t.id = d → d ∈ t.dependencies) :
    d ∉ (runPass w rem executed st).executed := by
  induction rem generalizing executed st with
  | nil => simpa [runPass] using hd
  | cons step rest ih =>
    have hstep_ne : depsMet executed step = true → step.id ≠ d := by
      intro hdeps heq
      have hmem : d ∈ step.dependencies :=
        hall step (List.mem_cons_self _ _) heq
      have : executed.contains d = true := by
        simp only [depsMet, List.all_eq_true] at hdeps
        exact hdeps d hmem
      exact hd (by simpa using this)
    simp only [runPass]
    split
    · rename_i hdeps
      have hne := hstep_ne hdeps
      have hd' : d ∉ step.id :: executed := by
        intro hmem
        rcases List.mem_cons.mp hmem with h | h
        · exact hne h.symm
        · exact hd h
      split
      · exact ih _ _ hd' (fun t ht => hall t (List.mem_cons_of_mem _ ht))
      · split
        · exact hd
        · exact ih _ _ hd' (fun t ht => hall t (List.mem_cons_of_mem _ ht))
    · exact ih _ _ hd (fun t ht => hall t (List.mem_cons_of_mem _ ht))

/-- A step blocked on such a dependency id survives every pass (unless
the pass aborts the run). -/
theorem runPass_blocked_stays (w : Workflow) (d : String)
    (s : WorkflowStep) :
    ∀ (rem : List WorkflowStep) (executed : List String) (st : RunState),
      s ∈ rem → d ∈ s.dependencies → d ∉ executed →
      (∀ t ∈ rem, t.id = d → d ∈ t.dependencies) →
      (runPass w rem executed st).err.isSome = true ∨
        s ∈ (runPass w rem executed st).remaining := by
  intro rem
  induction rem with
  | nil =>
    intro executed st hs
    simp at hs
  | cons step rest ih =>
    intro executed st hs hds hd hall
    simp only [runPass]
    split
    · rename_i hdeps
      have hsne : s ≠ step := by
        intro heq
        subst heq
        have : executed.contains d = true := by
          simp only [depsMet, List.all_eq_true] at hdeps
          exact hdeps d hds
        exact hd (by simpa using this)
      have hs' : s ∈ rest := by
        rcases List.mem_cons.mp hs with h | h
        · exact absurd h hsne
        · exact h
      have hne : step.id ≠ d := by
        intro heq
        have hmem : d ∈ step.dependencies :=
          hall step (List.mem_cons_self _ _) heq
        have : executed.contains d = true := by
          simp only [depsMet, List.all_eq_true] at hdeps
          exact hdeps d hmem
        exact hd (by simpa using this)
      have hd' : d ∉ step.id :: executed := by
        intro hmem
        rcases List.mem_cons.mp hmem with h | h
        · exact hne h.symm
        · exact hd h
      split
      · exact ih _ _ hs' hds hd' (fun t ht => hall t (List.mem_cons_of_mem _ ht))
      · split
        · left; rfl
        · exact ih _ _ hs' hds hd'
            (fun t ht => hall t (List.mem_cons_of_mem _ ht))
    · rcases List.mem_cons.mp hs with rfl | hs'
      · right
        exact List.mem_cons_self _ _
      · rcases ih _ _ hs' hds hd
            (fun t ht => hall t (List.mem_cons_of_mem _ ht)) with h | h
        · left; exact h
        · right; exact List.mem_cons_of_mem _ h


/-- A run holding a step that waits on a dependency id no dispatchable
step can ever supply must end in an error. -/
theorem runLoop_badDep (w : Workflow) (d : String) (s : WorkflowStep)
    (rem : List WorkflowStep) (executed : List String) (st : RunState)
    (hs : s ∈ rem) (hds : d ∈ s.dependencies) (hd : d ∉ executed)
    (hall : ∀ t ∈ rem, t.id = d → d ∈ t.dependencies) :
    (runLoop w rem executed st).err.isSome = true := by
  induction rem, executed, st using runLoop.induct w with
  | case1 rem executed st hemp =>
    rw [List.isEmpty_iff] at hemp
    subst hemp
    simp at hs
  | case2 rem executed st hemp pr e he =>
    rw [runLoop_passErr w rem executed st e hemp he]
    rfl
  | case3 rem executed st hemp pr he hp ih =>
    rw [runLoop_progress w rem executed st hemp he hp]
    have hstay := runPass_blocked_stays w d s rem executed st hs hds hd hall
    rcases hstay with hsome | hstay
    · rw [he] at hsome
      simp at hsome
    · have hd' := runPass_d_not_executed w d rem executed st hd hall
      have hall' : ∀ t ∈ (runPass w rem executed st).remaining,
          t.id = d → d ∈ t.dependencies :=
        fun t ht =>
          hall t ((runPass_remaining_sublist w rem executed st).subset ht)
      exact ih hstay hd' hall'
  | case4 rem executed st hemp pr he hp =>
    rw [runLoop_stuck w rem executed st hemp he hp]
    rfl

/-- A run error is either the cycle/deadlock error or the error of some
step that failed under a stopping policy. -/
theorem runLoop_err_elim (w : Workflow) (rem : List WorkflowStep)
    (executed : List String) (st : RunState) (e : WFError)
    (h : (runLoop w rem executed st).err = some e) :
    e = .cyclicOrUnmet ∨
      ∃ s ∈ rem, stopsOnError s.onError = true ∧
        executeStep w s = .error e := by
  induction rem, executed, st using runLoop.induct w with
  | case1 rem executed st hemp =>
    rw [runLoop_empty w rem executed st hemp] at h
    simp at h
  | case2 rem executed st hemp pr e' he =>
    rw [runLoop_passErr w rem executed st e' hemp he] at h
    simp only [Option.some.injEq] at h
    subst h
    right
    exact runPass_err_elim w rem executed st e' he
  | case3 rem executed st hemp pr he hp ih =>
    rw [runLoop_progress w rem executed st hemp he hp] at h
    rcases ih h with h' | ⟨s, hs, h1, h2⟩
    · left; exact h'
    · right
      exact ⟨s, (runPass_remaining_sublist w rem executed st).subset hs,
        h1, h2⟩
  | case4 rem executed st hemp pr he hp =>
    rw [runLoop_stuck w rem executed st hemp he hp] at h
    simp only [Option.some.injEq] at h
    left
    exact h.symm

/-- When every step type is handled, the only possible run error is the
cycle/deadlock error. -/
theorem runLoop_err_known (w : Workflow) (rem : List WorkflowStep)
    (executed : List String) (st : RunState) (e : WFError)
    (hk : ∀ t ∈ rem, knownType t.type = true)
    (h : (runLoop w rem executed st).err = some e) :
    e = .cyclicOrUnmet := by
  rcases runLoop_err_elim w rem executed st e h with h' | ⟨s, hs, _, herr⟩
  · exact h'
  · obtain ⟨v, hv⟩ := executeStep_known w s (hk s hs)
    rw [hv] at herr
    exact absurd herr (by simp)

/-! ## Lookup lemmas for the Go-map model -/

theorem lookup_mapSet_self {α : Type} (m : List (String × α)) (k : String)
    (v : α) : (mapSet m k v).lookup k = some v := by
  induction m with
  | nil => simp [mapSet]
  | cons kv rest ih =>
    obtain ⟨k', v'⟩ := kv
    simp only [mapSet]
    by_cases h : k' = k
    · rw [if_pos h]
      simp
    · rw [if_neg h]
      have hb : (k == k') = false := beq_eq_false_iff_ne.mpr (Ne.symm h)
      simp [List.lookup, hb, ih]

theorem lookup_mapSet_ne {α : Type} (m : List (String × α)) (k k' : String)
    (v : α) (h : k' ≠ k) :
    (mapSet m k v).lookup k' = m.lookup k' := by
  have hb0 : (k' == k) = false := beq_eq_false_iff_ne.mpr h
  induction m with
  | nil => simp [mapSet, List.lookup, hb0]
  | cons kv rest ih =>
    obtain ⟨k0, v0⟩ := kv
    simp only [mapSet]
    by_cases h0 : k0 = k
    · rw [if_pos h0]
      have hb2 : (k' == k0) = false :=
        beq_eq_false_iff_ne.mpr (fun he => h (he.trans h0))
      simp [List.lookup, hb0, hb2]
    · rw [if_neg h0]
      by_cases h1 : k' = k0
      · subst h1
        simp [List.lookup]
      · have hb : (k' == k0) = false := beq_eq_false_iff_ne.mpr h1
        simp [List.lookup, hb, ih]

/-! ## Which ids a run writes -/

/-- A pass leaves the status of ids it never dispatched untouched. -/
theorem runPass_status_untouched (w : Workflow) (rem : List WorkflowStep)
    (executed : List String) (st : RunState) (i : String)
    (h : ∀ t ∈ (runPass w rem executed st).trace, t.step.id ≠ i) :
    (runPass w rem executed st).state.stepStatus.lookup i =
      st.stepStatus.lookup i := by
  induction rem generalizing executed st with
  | nil => simp [runPass]
  | cons step rest ih =>
    simp only [runPass] at h ⊢
    by_cases hdeps : depsMet executed step = true
    · rw [if_pos hdeps] at h ⊢
      cases hok : executeStep w step with
      | error e =>
        rw [hok] at h
        dsimp only at h ⊢
        by_cases hstop : stopsOnError step.onError = true
        · rw [if_pos hstop] at h ⊢
          have hne : step.id ≠ i := h _ (List.mem_singleton.mpr rfl)
          exact lookup_mapSet_ne _ _ _ _ (Ne.symm hne)
        · rw [if_neg hstop] at h ⊢
          have hne : step.id ≠ i := h _ (List.mem_cons_self _ _)
          rw [ih _ _ (fun t ht => h t (List.mem_cons_of_mem _ ht))]
          exact lookup_mapSet_ne _ _ _ _ (Ne.symm hne)
      | ok v =>
        rw [hok] at h
        dsimp only at h ⊢
        have hne : step.id ≠ i := h _ (List.mem_cons_self _ _)
        rw [ih _ _ (fun t ht => h t (List.mem_cons_of_mem _ ht))]
        exact lookup_mapSet_ne _ _ _ _ (Ne.symm hne)
    · rw [if_neg hdeps] at h ⊢
      exact ih _ _ h

/-- A run leaves the status of ids it never dispatched untouched. -/
theorem runLoop_status_untouched (w : Workflow) (rem : List WorkflowStep)
    (executed : List String) (st : RunState) (i : String)
    (h : ∀ t ∈ (runLoop w rem executed st).trace, t.step.id ≠ i) :
    (runLoop w rem executed st).state.stepStatus.lookup i =
      st.stepStatus.lookup i := by
  induction rem, executed, st using runLoop.induct w with
  | case1 rem executed st hemp =>
    rw [runLoop_empty w rem executed st hemp]
  | case2 rem executed st hemp pr e he =>
    rw [runLoop_passErr w rem executed st e hemp he] at h ⊢
    exact runPass_status_untouched w rem executed st i h
  | case3 rem executed st hemp pr he hp ih =>
    rw [runLoop_progress w rem executed st hemp he hp] at h ⊢
    have h1 : ∀ t ∈ (runLoop w (runPass w rem executed st).remaining
        (runPass w rem executed st).executed
        (runPass w rem executed st).state).trace, t.step.id ≠ i :=
      fun t ht => h t (List.mem_append.mpr (Or.inr ht))
    have h2 : ∀ t ∈ (runPass w rem executed st).trace, t.step.id ≠ i :=
      fun t ht => h t (List.mem_append.mpr (Or.inl ht))
    rw [ih h1]
    exact runPass_status_untouched w rem executed st i h2
  | case4 rem executed st hemp pr he hp =>
    rw [runLoop_stuck w rem executed st hemp he hp] at h ⊢
    exact runPass_status_untouched w rem executed st i h

/-- Every step a run dispatches came from its remaining list. -/
theorem runLoop_trace_mem (w : Workflow) (rem : List WorkflowStep)
    (executed : List String) (st : RunState) :
    ∀ t ∈ (runLoop w rem executed st).trace, t.step ∈ rem := by
  induction rem, executed, st using runLoop.induct w with
  | case1 rem executed st hemp =>
    rw [runLoop_empty w rem executed st hemp]
    simp
  | case2 rem executed st hemp pr e he =>
    rw [runLoop_passErr w rem executed st e hemp he]
    exact runPass_trace_mem w rem executed st
  | case3 rem executed st hemp pr he hp ih =>
    rw [runLoop_progress w rem executed st hemp he hp]
    intro t ht
    rcases List.mem_append.mp ht with h | h
    · exact runPass_trace_mem w rem executed st t h
    · exact (runPass_remaining_sublist w rem executed st).subset (ih t h)
  | case4 rem executed st hemp pr he hp =>
    rw [runLoop_stuck w rem executed st hemp he hp]
    exact runPass_trace_mem w rem executed st

/-! ## Stop-policy failures end the run -/

/-- A pass that did not abort dispatched no failing stop-policy step. -/
theorem runPass_clean_of_err_none (w : Workflow) (rem : List WorkflowStep)
    (executed : List String) (st : RunState)
    (h : (runPass w rem executed st).err = none) :
    ∀ t ∈ (runPass w rem executed st).trace, isStopFailure t = false := by
  induction rem generalizing executed st with
  | nil => simp [runPass]
  | cons step rest ih =>
    simp only [runPass] at h ⊢
    by_cases hdeps : depsMet executed step = true
    · rw [if_pos hdeps] at h ⊢
      cases hok : executeStep w step with
      | error e =>
        try rw [hok] at h
        try rw [hok]
        dsimp only at h ⊢
        by_cases hstop : stopsOnError step.onError = true
        · rw [if_pos hstop] at h
          exact absurd h (by simp)
        · rw [if_neg hstop] at h ⊢
          intro t ht
          rcases List.mem_cons.mp ht with rfl | ht'
          · simp [isStopFailure, hstop]
          · exact ih _ _ h t ht'
      | ok v =>
        try rw [hok] at h
        try rw [hok]
        dsimp only at h ⊢
        intro t ht
        rcases List.mem_cons.mp ht with rfl | ht'
        · simp [isStopFailure]
        · exact ih _ _ h t ht'
    · rw [if_neg hdeps] at h ⊢
      exact ih _ _ h

/-- A pass that aborted with error `e` has a trace that ends with the
failing stop-policy dispatch; every earlier dispatch was tolerated, and
the failing step's status reads `"failed"` in the pass's final state. -/
theorem runPass_err_decomp (w : Workflow) (rem : List WorkflowStep)
    (executed : List String) (st : RunState) (e : WFError)
    (h : (runPass w rem executed st).err = some e) :
    ∃ pre entry, (runPass w rem executed st).trace = pre ++ [entry] ∧
      entry.outcome = .failure e ∧
      stopsOnError entry.step.onError = true ∧
      (∀ t ∈ pre, isStopFailure t = false) ∧
      (runPass w rem executed st).state.stepStatus.lookup entry.step.id =
        some "failed" := by
  induction rem generalizing executed st with
  | nil => simp [runPass] at h
  | cons step rest ih =>
    simp only [runPass] at h ⊢
    by_cases hdeps : depsMet executed step = true
    · rw [if_pos hdeps] at h ⊢
      cases hok : executeStep w step with
      | error e0 =>
        try rw [hok] at h
        try rw [hok]
        dsimp only at h ⊢
        by_cases hstop : stopsOnError step.onError = true
        · rw [if_pos hstop] at h ⊢
          dsimp only at h
          obtain rfl : e0 = e := by simpa using h
          refine ⟨[], ⟨step, executed, .failure e0⟩, by simp, rfl, hstop,
            by simp, ?_⟩
          exact lookup_mapSet_self _ _ _
        · rw [if_neg hstop] at h ⊢
          obtain ⟨pre, entry, h1, h2, h3, h4, h5⟩ := ih _ _ h
          refine ⟨⟨step, executed, .failure e0⟩ :: pre, entry, ?_, h2, h3,
            ?_, h5⟩
          · simp [h1]
          · intro t ht
            rcases List.mem_cons.mp ht with rfl | ht'
            · simp [isStopFailure, hstop]
            · exact h4 t ht'
      | ok v =>
        try rw [hok] at h
        try rw [hok]
        dsimp only at h ⊢
        obtain ⟨pre, entry, h1, h2, h3, h4, h5⟩ := ih _ _ h
        refine ⟨⟨step, executed, .success v⟩ :: pre, entry, ?_, h2, h3,
          ?_, h5⟩
        · simp [h1]
        · intro t ht
          rcases List.mem_cons.mp ht with rfl | ht'
          · simp [isStopFailure]
          · exact h4 t ht'
    · rw [if_neg hdeps] at h ⊢
      exact ih _ _ h

/-- A run that did not fail dispatched no failing stop-policy step. -/
theorem runLoop_clean_of_err_none (w : Workflow) (rem : List WorkflowStep)
    (executed : List String) (st : RunState)
    (h : (runLoop w rem executed st).err = none) :
    ∀ t ∈ (runLoop w rem executed st).trace, isStopFailure t = false := by
  induction rem, executed, st using runLoop.induct w with
  | case1 rem executed st hemp =>
    rw [runLoop_empty w rem executed st hemp]
    simp
  | case2 rem executed st hemp pr e he =>
    rw [runLoop_passErr w rem executed st e hemp he] at h
    exact absurd h (by simp)
  | case3 rem executed st hemp pr he hp ih =>
    rw [runLoop_progress w rem executed st hemp he hp] at h ⊢
    intro t ht
    rcases List.mem_append.mp ht with ht' | ht'
    · exact runPass_clean_of_err_none w rem executed st he t ht'
    · exact ih h t ht'
  | case4 rem executed st hemp pr he hp =>
    rw [runLoop_stuck w rem executed st hemp he hp] at h
    exact absurd h (by simp)

/-- A failed run either got stuck (cycle/unmet dependency, no aborting
dispatch at all) or ends with exactly one failing stop-policy dispatch,
recorded `"failed"`, as the last dispatch of the whole run. -/
theorem runLoop_err_decomp (w : Workflow) (rem : List WorkflowStep)
    (executed : List String) (st : RunState) (e : WFError)
    (h : (runLoop w rem executed st).err = some e) :
    (e = .cyclicOrUnmet ∧
      ∀ t ∈ (runLoop w rem executed st).trace, isStopFailure t = false) ∨
    (∃ pre entry, (runLoop w rem executed st).trace = pre ++ [entry] ∧
      entry.outcome = .failure e ∧
      stopsOnError entry.step.onError = true ∧
      (∀ t ∈ pre, isStopFailure t = false) ∧
      (runLoop w rem executed st).state.stepStatus.lookup entry.step.id =
        some "failed") := by
  induction rem, executed, st using runLoop.induct w with
  | case1 rem executed st hemp =>
    rw [runLoop_empty w rem executed st hemp] at h
    exact absurd h (by simp)
  | case2 rem executed st hemp pr e' he =>
    rw [runLoop_passErr w rem executed st e' hemp he] at h ⊢
    obtain rfl : e' = e := by simpa using h
    right
    exact runPass_err_decomp w rem executed st e' he
  | case3 rem executed st hemp pr he hp ih =>
    rw [runLoop_progress w rem executed st hemp he hp] at h ⊢
    rcases ih h with ⟨rfl, hclean⟩ | ⟨pre, entry, h1, h2, h3, h4, h5⟩
    · left
      refine ⟨rfl, ?_⟩
      intro t ht
      rcases List.mem_append.mp ht with ht' | ht'
      · exact runPass_clean_of_err_none w rem executed st he t ht'
      · exact hclean t ht'
    · right
      refine ⟨(runPass w rem executed st).trace ++ pre, entry, ?_, h2, h3,
        ?_, h5⟩
      · simp [h1]
      · intro t ht
        rcases List.mem_append.mp ht with ht' | ht'
        · exact runPass_clean_of_err_none w rem executed st he t ht'
        · exact h4 t ht'
  | case4 rem executed st hemp pr he hp =>
    rw [runLoop_stuck w rem executed st hemp he hp] at h ⊢
    obtain rfl : WFError.cyclicOrUnmet = e := by simpa using h
    left
    exact ⟨rfl, runPass_clean_of_err_none w rem executed st he⟩

/-! ## The executed set -/

/-- The executed set only grows during a pass. -/
theorem runPass_executed_mono (w : Workflow) (rem : List WorkflowStep)
    (executed : List String) (st : RunState) (x : String)
    (h : x ∈ executed) : x ∈ (runPass w rem executed st).executed := by
  induction rem generalizing executed st with
  | nil => simpa [runPass] using h
  | cons step rest ih =>
    simp only [runPass]
    by_cases hdeps : depsMet executed step = true
    · rw [if_pos hdeps]
      cases executeStep w step with
      | error e =>
        dsimp only
        by_cases hstop : stopsOnError step.onError = true
        · rw [if_pos hstop]
          exact h
        · rw [if_neg hstop]
          exact ih _ _ (List.mem_cons_of_mem _ h)
      | ok v =>
        dsimp only
        exact ih _ _ (List.mem_cons_of_mem _ h)
    · rw [if_neg hdeps]
      exact ih _ _ h

/-- Every tolerated dispatch of a pass puts its step id into the
executed set. -/
theorem runPass_executed_of_trace (w : Workflow) (rem : List WorkflowStep)
    (executed : List String) (st : RunState) :
    ∀ t ∈ (runPass w rem executed st).trace, isStopFailure t = false →
      t.step.id ∈ (runPass w rem executed st).executed := by
  induction rem generalizing executed st with
  | nil => simp [runPass]
  | cons step rest ih =>
    simp only [runPass]
    by_cases hdeps : depsMet executed step = true
    · rw [if_pos hdeps]
      cases executeStep w step with
      | error e =>
        dsimp only
        by_cases hstop : stopsOnError step.onError = true
        · rw [if_pos hstop]
          intro t ht hclean
          rcases List.mem_singleton.mp ht with rfl
          simp [isStopFailure, hstop] at hclean
        · rw [if_neg hstop]
          intro t ht hclean
          rcases List.mem_cons.mp ht with rfl | ht'
          · exact runPass_executed_mono w rest _ _ _
              (List.mem_cons_self _ _)
          · exact ih _ _ t ht' hclean
      | ok v =>
        dsimp only
        intro t ht hclean
        rcases List.mem_cons.mp ht with rfl | ht'
        · exact runPass_executed_mono w rest _ _ _ (List.mem_cons_self _ _)
        · exact ih _ _ t ht' hclean
    · rw [if_neg hdeps]
      intro t ht hclean
      exact ih _ _ t ht hclean

/-- The executed set only grows during a run. -/
theorem runLoop_executed_mono (w : Workflow) (rem : List WorkflowStep)
    (executed : List String) (st : RunState) (x : String)
    (h : x ∈ executed) : x ∈ (runLoop w rem executed st).executed := by
  induction rem, executed, st using runLoop.induct w with
  | case1 rem executed st hemp =>
    rw [runLoop_empty w rem executed st hemp]
    exact h
  | case2 rem executed st hemp pr e he =>
    rw [runLoop_passErr w rem executed st e hemp he]
    exact runPass_executed_mono w rem executed st x h
  | case3 rem executed st hemp pr he hp ih =>
    rw [runLoop_progress w rem executed st hemp he hp]
    exact ih (runPass_executed_mono w rem executed st x h)
  | case4 rem executed st hemp pr he hp =>
    rw [runLoop_stuck w rem executed st hemp he hp]
    exact runPass_executed_mono w rem executed st x h

/-- Every tolerated dispatch of a run puts its step id into the final
executed set. -/
theorem runLoop_executed_of_trace (w : Workflow) (rem : List WorkflowStep)
    (executed : List String) (st : RunState) :
    ∀ t ∈ (runLoop w rem executed st).trace, isStopFailure t = false →
      t.step.id ∈ (runLoop w rem executed st).executed := by
  induction rem, executed, st using runLoop.induct w with
  | case1 rem executed st hemp =>
    rw [runLoop_empty w rem executed st hemp]
    simp
  | case2 rem executed st hemp pr e he =>
    rw [runLoop_passErr w rem executed st e hemp he]
    exact runPass_executed_of_trace w rem executed st
  | case3 rem executed st hemp pr he hp ih =>
    rw [runLoop_progress w rem executed st hemp he hp]
    intro t ht hclean
    rcases List.mem_append.mp ht with ht' | ht'
    · exact runLoop_executed_mono w _ _ _ _
        (runPass_executed_of_trace w rem executed st t ht' hclean)
    · exact ih t ht' hclean
  | case4 rem executed st hemp pr he hp =>
    rw [runLoop_stuck w rem executed st hemp he hp]
    exact runPass_executed_of_trace w rem executed st

/-! ## Per-step status under unique ids -/

/-- With unique remaining ids, a pass never leaves a dispatched id in
its remaining list. -/
theorem runPass_trace_id_gone (w : Workflow) (rem : List WorkflowStep)
    (executed : List String) (st : RunState)
    (hnd : (rem.map (fun s => s.id)).Nodup) :
    ∀ t ∈ (runPass w rem executed st).trace,
      t.step.id ∉ (runPass w rem executed st).remaining.map
        (fun s => s.id) := by
  induction rem generalizing executed st with
  | nil => simp [runPass]
  | cons step rest ih =>
    rw [List.map_cons, List.nodup_cons] at hnd
    obtain ⟨hhead, hrest⟩ := hnd
    have hsub : ∀ (ex' : List String) (st' : RunState),
        ((runPass w rest ex' st').remaining.map (fun s => s.id)).Sublist
          (rest.map (fun s => s.id)) :=
      fun ex' st' => (runPass_remaining_sublist w rest ex' st').map _
    simp only [runPass]
    by_cases hdeps : depsMet executed step = true
    · rw [if_pos hdeps]
      cases executeStep w step with
      | error e =>
        dsimp only
        by_cases hstop : stopsOnError step.onError = true
        · rw [if_pos hstop]
          intro t ht
          rcases List.mem_singleton.mp ht with rfl
          exact hhead
        · rw [if_neg hstop]
          intro t ht
          rcases List.mem_cons.mp ht with rfl | ht'
          · exact fun hmem => hhead ((hsub _ _).subset hmem)
          · exact ih _ _ hrest t ht'
      | ok v =>
        dsimp only
        intro t ht
        rcases List.mem_cons.mp ht with rfl | ht'
        · exact fun hmem => hhead ((hsub _ _).subset hmem)
        · exact ih _ _ hrest t ht'
    · rw [if_neg hdeps]
      intro t ht
      have hne : t.step.id ≠ step.id := by
        intro heq
        have : t.step ∈ rest := runPass_trace_mem w rest executed st t ht
        exact hhead (heq ▸ List.mem_map_of_mem (fun s => s.id) this)
      intro hmem
      rcases List.mem_cons.mp hmem with h' | h'
      · exact hne h'
      · exact ih _ _ hrest t ht h'

/-- With unique remaining ids, each dispatched step's recorded status in
the pass's final state is determined by its outcome. -/
theorem runPass_status_of_trace (w : Workflow) (rem : List WorkflowStep)
    (executed : List String) (st : RunState)
    (hnd : (rem.map (fun s => s.id)).Nodup) :
    ∀ t ∈ (runPass w rem executed st).trace,
      (runPass w rem executed st).state.stepStatus.lookup t.step.id =
        some (statusOf t.outcome) := by
  induction rem generalizing executed st with
  | nil => simp [runPass]
  | cons step rest ih =>
    rw [List.map_cons, List.nodup_cons] at hnd
    obtain ⟨hhead, hrest⟩ := hnd
    have havoid : ∀ (ex' : List String) (st' : RunState),
        ∀ t ∈ (runPass w rest ex' st').trace, t.step.id ≠ step.id := by
      intro ex' st' t ht heq
      have : t.step ∈ rest := runPass_trace_mem w rest ex' st' t ht
      exact hhead (heq ▸ List.mem_map_of_mem (fun s => s.id) this)
    simp only [runPass]
    by_cases hdeps : depsMet executed step = true
    · rw [if_pos hdeps]
      cases executeStep w step with
      | error e =>
        dsimp only
        by_cases hstop : stopsOnError step.onError = true
        · rw [if_pos hstop]
          intro t ht
          rcases List.mem_singleton.mp ht with rfl
          exact lookup_mapSet_self _ _ _
        · rw [if_neg hstop]
          intro t ht
          rcases List.mem_cons.mp ht with rfl | ht'
          · rw [runPass_status_untouched w rest _ _ _ (havoid _ _)]
            exact lookup_mapSet_self _ _ _
          · exact ih _ _ hrest t ht'
      | ok v =>
        dsimp only
        intro t ht
        rcases List.mem_cons.mp ht with rfl | ht'
        · rw [runPass_status_untouched w rest _ _ _ (havoid _ _)]
          exact lookup_mapSet_self _ _ _
        · exact ih _ _ hrest t ht'
    · rw [if_neg hdeps]
      exact ih _ _ hrest

/-- With unique step ids, each dispatched step's recorded status in the
run's final state is determined by its outcome. -/
theorem runLoop_status_of_trace (w : Workflow) (rem : List WorkflowStep)
    (executed : List String) (st : RunState)
    (hnd : (rem.map (fun s => s.id)).Nodup) :
    ∀ t ∈ (runLoop w rem executed st).trace,
      (runLoop w rem executed st).state.stepStatus.lookup t.step.id =
        some (statusOf t.outcome) := by
  induction rem, executed, st using runLoop.induct w with
  | case1 rem executed st hemp =>
    rw [runLoop_empty w rem executed st hemp]
    simp
  | case2 rem executed st hemp pr e he =>
    rw [runLoop_passErr w rem executed st e hemp he]
    exact runPass_status_of_trace w rem executed st hnd
  | case3 rem executed st hemp pr he hp ih =>
    have hnd' : ((runPass w rem executed st).remaining.map
        (fun s => s.id)).Nodup :=
      hnd.sublist ((runPass_remaining_sublist w rem executed st).map _)
    rw [runLoop_progress w rem executed st hemp he hp]
    intro t ht
    rcases List.mem_append.mp ht with ht' | ht'
    · have hgone := runPass_trace_id_gone w rem executed st hnd t ht'
      have havoid : ∀ t' ∈ (runLoop w (runPass w rem executed st).remaining
          (runPass w rem executed st).executed
          (runPass w rem executed st).state).trace,
          t'.step.id ≠ t.step.id := by
        intro t' ht'' heq
        have hmem : t'.step ∈ (runPass w rem executed st).remaining :=
          runLoop_trace_mem w _ _ _ t' ht''
        exact hgone (heq ▸ List.mem_map_of_mem (fun s => s.id) hmem)
      rw [runLoop_status_untouched w _ _ _ _ havoid]
      exact runPass_status_of_trace w rem executed st hnd t ht'
    · exact ih hnd' t ht'
  | case4 rem executed st hemp pr he hp =>
    rw [runLoop_stuck w rem executed st hemp he hp]
    exact runPass_status_of_trace w rem executed st hnd

/-! ## Completeness: a clean run dispatches every step -/

/-- Each remaining step is either dispatched during the pass or still
remaining afterwards. -/
theorem runPass_dispatch_or_stay (w : Workflow) (rem : List WorkflowStep)
    (executed : List String) (st : RunState) :
    ∀ s ∈ rem, (∃ t ∈ (runPass w rem executed st).trace, t.step = s) ∨
      s ∈ (runPass w rem executed st).remaining := by
  induction rem generalizing executed st with
  | nil => simp
  | cons step rest ih =>
    simp only [runPass]
    by_cases hdeps : depsMet executed step = true
    · rw [if_pos hdeps]
      cases executeStep w step with
      | error e =>
        dsimp only
        by_cases hstop : stopsOnError step.onError = true
        · rw [if_pos hstop]
          intro s hs
          rcases List.mem_cons.mp hs with rfl | hs'
          · exact Or.inl ⟨_, List.mem_singleton.mpr rfl, rfl⟩
          · exact Or.inr hs'
        · rw [if_neg hstop]
          intro s hs
          rcases List.mem_cons.mp hs with rfl | hs'
          · exact Or.inl ⟨_, List.mem_cons_self _ _, rfl⟩
          · rcases ih _ _ s hs' with ⟨t, ht, rfl⟩ | h'
            · exact Or.inl ⟨t, List.mem_cons_of_mem _ ht, rfl⟩
            · exact Or.inr h'
      | ok v =>
        dsimp only
        intro s hs
        rcases List.mem_cons.mp hs with rfl | hs'
        · exact Or.inl ⟨_, List.mem_cons_self _ _, rfl⟩
        · rcases ih _ _ s hs' with ⟨t, ht, rfl⟩ | h'
          · exact Or.inl ⟨t, List.mem_cons_of_mem _ ht, rfl⟩
          · exact Or.inr h'
    · rw [if_neg hdeps]
      intro s hs
      rcases List.mem_cons.mp hs with rfl | hs'
      · exact Or.inr (List.mem_cons_self _ _)
      · rcases ih _ _ s hs' with ⟨t, ht, rfl⟩ | h'
        · exact Or.inl ⟨t, ht, rfl⟩
        · exact Or.inr (List.mem_cons_of_mem _ h')

/-- A run that ends without error dispatched every step it started
with. -/
theorem runLoop_complete (w : Workflow) (rem : List WorkflowStep)
    (executed : List String) (st : RunState)
    (h : (runLoop w rem executed st).err = none) :
    ∀ s ∈ rem, ∃ t ∈ (runLoop w rem executed st).trace, t.step = s := by
  induction rem, executed, st using runLoop.induct w with
  | case1 rem executed st hemp =>
    rw [List.isEmpty_iff] at hemp
    subst hemp
    simp
  | case2 rem executed st hemp pr e he =>
    rw [runLoop_passErr w rem executed st e hemp he] at h
    exact absurd h (by simp)
  | case3 rem executed st hemp pr he hp ih =>
    rw [runLoop_progress w rem executed st hemp he hp] at h ⊢
    intro s hs
    rcases runPass_dispatch_or_stay w rem executed st s hs with
      ⟨t, ht, rfl⟩ | hstay
    · exact ⟨t, List.mem_append.mpr (Or.inl ht), rfl⟩
    · obtain ⟨t, ht, rfl⟩ := ih h s hstay
      exact ⟨t, List.mem_append.mpr (Or.inr ht), rfl⟩
  | case4 rem executed st hemp pr he hp =>
    rw [runLoop_stuck w rem executed st hemp he hp] at h
    exact absurd h (by simp)

/-! ## The retry policy behaves exactly like continue -/

/-- Step handlers ignore the workflow record, so dispatch does not
depend on it. -/
theorem executeStep_indep (w w' : Workflow) (s : WorkflowStep) :
    executeStep w s = executeStep w' s := rfl

/-- Rewriting the retry policy changes neither the dispatch nor the
handler result (they read only the step's type and configuration). -/
theorem executeStep_retryStep (w : Workflow) (s : WorkflowStep) :
    executeStep w (retryToContinueStep s) = executeStep w s := rfl

/-- Rewriting the retry policy leaves the stop test unchanged: neither
`"retry"` nor `"continue"` stops the run. -/
theorem stopsOnError_retryStep (s : WorkflowStep) :
    stopsOnError (retryToContinueStep s).onError =
      stopsOnError s.onError := by
  simp only [retryToContinueStep]
  by_cases h : s.onError = "retry"
  · rw [if_pos h, h]
    rfl
  · rw [if_neg h]

/-- A pass of the retry-rewritten step list agrees with the original
pass on every observable. -/
theorem runPass_retry (w w' : Workflow) :
    ∀ (rem : List WorkflowStep) (executed : List String) (st : RunState),
      (runPass w' (rem.map retryToContinueStep) executed st).err =
        (runPass w rem executed st).err ∧
      (runPass w' (rem.map retryToContinueStep) executed st).remaining =
        (runPass w rem executed st).remaining.map retryToContinueStep ∧
      (runPass w' (rem.map retryToContinueStep) executed st).executed =
        (runPass w rem executed st).executed ∧
      (runPass w' (rem.map retryToContinueStep) executed st).state =
        (runPass w rem executed st).state ∧
      (runPass w' (rem.map retryToContinueStep) executed st).progress =
        (runPass w rem executed st).progress := by
  intro rem
  induction rem with
  | nil =>
    intro executed st
    simp [runPass]
  | cons step rest ih =>
    intro executed st
    simp only [List.map_cons, runPass]
    have hdeq : depsMet executed (retryToContinueStep step) =
        depsMet executed step := rfl
    rw [hdeq, executeStep_retryStep w' step,
      executeStep_indep w' w step, stopsOnError_retryStep step]
    by_cases hdeps : depsMet executed step = true
    · rw [if_pos hdeps, if_pos hdeps]
      cases executeStep w step with
      | error e =>
        dsimp only
        by_cases hstop : stopsOnError step.onError = true
        · rw [if_pos hstop, if_pos hstop]
          exact ⟨rfl, rfl, rfl, rfl, rfl⟩
        · rw [if_neg hstop, if_neg hstop]
          obtain ⟨h1, h2, h3, h4, h5⟩ := ih (step.id :: executed)
            { st with stepStatus := mapSet st.stepStatus step.id "failed" }
          exact ⟨h1, h2, h3, h4, rfl⟩
      | ok v =>
        dsimp only
        obtain ⟨h1, h2, h3, h4, h5⟩ := ih (step.id :: executed)
          { stepStatus := mapSet st.stepStatus step.id "completed",
            stepResults := mapSet st.stepResults step.id v }
        exact ⟨h1, h2, h3, h4, rfl⟩
    · rw [if_neg hdeps, if_neg hdeps]
      obtain ⟨h1, h2, h3, h4, h5⟩ := ih executed st
      exact ⟨h1, by simp [h2], h3, h4, h5⟩

/-- A run of the retry-rewritten step list agrees with the original run
on state, error and executed set. -/
theorem runLoop_retry (w w' : Workflow) (rem : List WorkflowStep)
    (executed : List String) (st : RunState) :
    (runLoop w' (rem.map retryToContinueStep) executed st).err =
      (runLoop w rem executed st).err ∧
    (runLoop w' (rem.map retryToContinueStep) executed st).state =
      (runLoop w rem executed st).state ∧
    (runLoop w' (rem.map retryToContinueStep) executed st).executed =
      (runLoop w rem executed st).executed := by
  induction rem, executed, st using runLoop.induct w with
  | case1 rem executed st hemp =>
    rw [List.isEmpty_iff] at hemp
    subst hemp
    rw [List.map_nil, runLoop_empty w [] executed st rfl,
      runLoop_empty w' [] executed st rfl]
    exact ⟨rfl, rfl, rfl⟩
  | case2 rem executed st hemp pr e he =>
    obtain ⟨h1, h2, h3, h4, h5⟩ := runPass_retry w w' rem executed st
    have hemp' : ¬(rem.map retryToContinueStep).isEmpty = true := by
      simpa using hemp
    have he' : (runPass w' (rem.map retryToContinueStep) executed st).err =
        some e := by rw [h1, he]
    rw [runLoop_passErr w rem executed st e hemp he,
      runLoop_passErr w' (rem.map retryToContinueStep) executed st e
        hemp' he']
    exact ⟨rfl, by rw [h4], by rw [h3]⟩
  | case3 rem executed st hemp pr he hp ih =>
    obtain ⟨h1, h2, h3, h4, h5⟩ := runPass_retry w w' rem executed st
    have hemp' : ¬(rem.map retryToContinueStep).isEmpty = true := by
      simpa using hemp
    have he' : (runPass w' (rem.map retryToContinueStep) executed st).err =
        none := by rw [h1, he]
    have hp' : (runPass w' (rem.map retryToContinueStep) executed
        st).progress = true := by rw [h5, hp]
    rw [runLoop_progress w rem executed st hemp he hp,
      runLoop_progress w' (rem.map retryToContinueStep) executed st
        hemp' he' hp']
    obtain ⟨g1, g2, g3⟩ := ih
    rw [h2, h3, h4]
    exact ⟨g1, g2, g3⟩
  | case4 rem executed st hemp pr he hp =>
    obtain ⟨h1, h2, h3, h4, h5⟩ := runPass_retry w w' rem executed st
    have hemp' : ¬(rem.map retryToContinueStep).isEmpty = true := by
      simpa using hemp
    have he' : (runPass w' (rem.map retryToContinueStep) executed st).err =
        none := by rw [h1, he]
    have hp' : ¬(runPass w' (rem.map retryToContinueStep) executed
        st).progress = true := by rw [h5]; exact hp
    rw [runLoop_stuck w rem executed st hemp he hp,
      runLoop_stuck w' (rem.map retryToContinueStep) executed st
        hemp' he' hp']
    exact ⟨rfl, by rw [h4], by rw [h3]⟩

/-! ## Each step is dispatched at most once -/

/-- With unique remaining ids, a pass dispatches pairwise distinct
ids. -/
theorem runPass_trace_ids_nodup (w : Workflow) (rem : List WorkflowStep)
    (executed : List String) (st : RunState)
    (hnd : (rem.map (fun s => s.id)).Nodup) :
    ((runPass w rem executed st).trace.map
      (fun t => t.step.id)).Nodup := by
  induction rem generalizing executed st with
  | nil => simp [runPass]
  | cons step rest ih =>
    rw [List.map_cons, List.nodup_cons] at hnd
    obtain ⟨hhead, hrest⟩ := hnd
    have htr : ∀ (ex' : List String) (st' : RunState),
        step.id ∉ (runPass w rest ex' st').trace.map
          (fun t => t.step.id) := by
      intro ex' st' hmem
      obtain ⟨t, ht, hid⟩ := List.mem_map.mp hmem
      have : t.step ∈ rest := runPass_trace_mem w rest ex' st' t ht
      exact hhead (hid ▸ List.mem_map_of_mem (fun s => s.id) this)
    simp only [runPass]
    by_cases hdeps : depsMet executed step = true
    · rw [if_pos hdeps]
      cases executeStep w step with
      | error e =>
        dsimp only
        by_cases hstop : stopsOnError step.onError = true
        · rw [if_pos hstop]
          simp
        · rw [if_neg hstop]
          rw [List.map_cons, List.nodup_cons]
          exact ⟨htr _ _, ih _ _ hrest⟩
      | ok v =>
        dsimp only
        rw [List.map_cons, List.nodup_cons]
        exact ⟨htr _ _, ih _ _ hrest⟩
    · rw [if_neg hdeps]
      exact ih _ _ hrest

/-- With unique step ids, a run dispatches pairwise distinct ids: no
step is ever attempted twice. -/
theorem runLoop_trace_ids_nodup (w : Workflow) (rem : List WorkflowStep)
    (executed : List String) (st : RunState)
    (hnd : (rem.map (fun s => s.id)).Nodup) :
    ((runLoop w rem executed st).trace.map
      (fun t => t.step.id)).Nodup := by
  induction rem, executed, st using runLoop.induct w with
  | case1 rem executed st hemp =>
    rw [runLoop_empty w rem executed st hemp]
    simp
  | case2 rem executed st hemp pr e he =>
    rw [runLoop_passErr w rem executed st e hemp he]
    exact runPass_trace_ids_nodup w rem executed st hnd
  | case3 rem executed st hemp pr he hp ih =>
    have hnd' : ((runPass w rem executed st).remaining.map
        (fun s => s.id)).Nodup :=
      hnd.sublist ((runPass_remaining_sublist w rem executed st).map _)
    rw [runLoop_progress w rem executed st hemp he hp]
    rw [List.map_append]
    refine List.Nodup.append (runPass_trace_ids_nodup w rem executed st hnd)
      (ih hnd') ?_
    intro a ha hb
    obtain ⟨t, ht, rfl⟩ := List.mem_map.mp ha
    obtain ⟨t', ht', hid⟩ := List.mem_map.mp hb
    have hgone := runPass_trace_id_gone w rem executed st hnd t ht
    have hmem : t'.step ∈ (runPass w rem executed st).remaining :=
      runLoop_trace_mem w _ _ _ t' ht'
    exact hgone (hid ▸ List.mem_map_of_mem (fun s => s.id) hmem)
  | case4 rem executed st hemp pr he hp =>
    rw [runLoop_stuck w rem executed st hemp he hp]
    exact runPass_trace_ids_nodup w rem executed st hnd

/-! ## Registry lemmas -/

/-- Setting a fresh key appends the binding. -/
theorem mapSet_append {α : Type} (m : List (String × α)) (k : String)
    (v : α) (h : k ∉ m.map Prod.fst) : mapSet m k v = m ++ [(k, v)] := by
  induction m with
  | nil => simp [mapSet]
  | cons kv rest ih =>
    obtain ⟨k0, v0⟩ := kv
    rw [List.map_cons] at h
    simp only [List.mem_cons, not_or] at h
    obtain ⟨h1, h2⟩ := h
    simp only [mapSet]
    rw [if_neg (fun he => h1 (by simp [he]))]
    rw [ih h2]
    simp

/-- In a registry with pairwise distinct keys, lookup finds exactly the
stored binding. -/
theorem lookup_of_mem_nodup {α : Type} (m : List (String × α)) (k : String)
    (v : α) (hnd : (m.map Prod.fst).Nodup) (hmem : (k, v) ∈ m) :
    m.lookup k = some v := by
  induction m with
  | nil => simp at hmem
  | cons kv rest ih =>
    obtain ⟨k0, v0⟩ := kv
    rw [List.map_cons, List.nodup_cons] at hnd
    obtain ⟨hhead, hrest⟩ := hnd
    rcases List.mem_cons.mp hmem with heq | hmem'
    · rw [Prod.mk.injEq] at heq
      obtain ⟨rfl, rfl⟩ := heq
      simp [List.lookup]
    · have hmap : k ∈ rest.map Prod.fst :=
        List.mem_map_of_mem Prod.fst hmem'
      have hk : k ≠ k0 := fun he => hhead (he ▸ hmap)
      have hb : (k == k0) = false := beq_eq_false_iff_ne.mpr hk
      simp [List.lookup, hb, ih hrest hmem']

/-- Registering a batch of workflows with pairwise fresh keys appends
two bindings per workflow: one under its id, one under its name. -/
theorem registerAll_append (ws : List Workflow) :
    ∀ (reg : List (String × Workflow)),
      (∀ w ∈ ws, w.id ≠ "") →
      (reg.map Prod.fst ++
        ws.flatMap (fun w => [w.id, w.name])).Nodup →
      registerAll ws reg =
        reg ++ ws.flatMap (fun w => [(w.id, w), (w.name, w)]) := by
  induction ws with
  | nil =>
    intro reg _ _
    simp [registerAll]
  | cons w rest ih =>
    intro reg hids hfresh
    have hid : w.id ≠ "" := hids w (List.mem_cons_self _ _)
    rw [List.flatMap_cons] at hfresh
    have hfresh' : (reg.map Prod.fst ++ [w.id, w.name] ++
        rest.flatMap (fun w => [w.id, w.name])).Nodup := by
      rwa [List.append_assoc]
    rw [List.nodup_append] at hfresh'
    obtain ⟨hL, _, hdisj⟩ := hfresh'
    rw [List.nodup_append] at hL
    obtain ⟨_, hM, hdisj0⟩ := hL
    have hidL : w.id ∉ reg.map Prod.fst := by
      intro hmem
      exact List.disjoint_left.mp hdisj0 hmem (by simp)
    have hnameL : w.name ∉ reg.map Prod.fst := by
      intro hmem
      exact List.disjoint_left.mp hdisj0 hmem (by simp)
    have hidname : w.id ≠ w.name := by
      intro he
      rw [List.nodup_cons] at hM
      exact hM.1 (by simp [he])
    have hstep : (RegisterWorkflow "generated" reg w).1 =
        reg ++ [(w.id, w), (w.name, w)] := by
      simp only [RegisterWorkflow, if_neg hid]
      rw [mapSet_append reg w.id w hidL]
      have hnf : w.name ∉ (reg ++ [(w.id, w)]).map Prod.fst := by
        rw [List.map_append]
        intro hmem
        rcases List.mem_append.mp hmem with h' | h'
        · exact hnameL h'
        · simp at h'
          exact hidname h'.symm
      rw [mapSet_append _ w.name w hnf]
      simp
    have hrec : registerAll (w :: rest) reg =
        registerAll rest (RegisterWorkflow "generated" reg w).1 := rfl
    rw [hrec, hstep, ih (reg ++ [(w.id, w), (w.name, w)])
      (fun t ht => hids t (List.mem_cons_of_mem _ ht)) ?_]
    · simp
    · rw [List.map_append]
      have : (reg.map Prod.fst ++ [(w.id, w), (w.name, w)].map Prod.fst) ++
          rest.flatMap (fun w => [w.id, w.name]) =
          reg.map Prod.fst ++ ([w.id, w.name] ++
            rest.flatMap (fun w => [w.id, w.name])) := by
        simp
      rw [this]
      exact hfresh

/-! ## The workflow record does not influence the resolver -/

/-- Passes ignore the workflow record (handlers read only the step). -/
theorem runPass_indep (w1 w2 : Workflow) :
    ∀ (rem : List WorkflowStep) (executed : List String) (st : RunState),
      runPass w1 rem executed st = runPass w2 rem executed st := by
  intro rem
  induction rem with
  | nil => intro executed st; rfl
  | cons step rest ih =>
    intro executed st
    simp only [runPass, executeStep_indep w1 w2 step, ih]

/-- Runs ignore the workflow record beyond its step list. -/
theorem runLoop_indep (w1 w2 : Workflow) (rem : List WorkflowStep)
    (executed : List String) (st : RunState) :
    runLoop w1 rem executed st = runLoop w2 rem executed st := by
  induction rem, executed, st using runLoop.induct w1 with
  | case1 rem executed st hemp =>
    rw [runLoop_empty w1 rem executed st hemp,
      runLoop_empty w2 rem executed st hemp]
  | case2 rem executed st hemp pr e he =>
    have hpi := runPass_indep w1 w2 rem executed st
    have he2 : (runPass w2 rem executed st).err = some e := by
      rw [← hpi]; exact he
    rw [runLoop_passErr w1 rem executed st e hemp he,
      runLoop_passErr w2 rem executed st e hemp he2, hpi]
  | case3 rem executed st hemp pr he hp ih =>
    have hpi := runPass_indep w1 w2 rem executed st
    have he2 : (runPass w2 rem executed st).err = none := by
      rw [← hpi]; exact he
    have hp2 : (runPass w2 rem executed st).progress = true := by
      rw [← hpi]; exact hp
    have hpr : pr = runPass w1 rem executed st := rfl
    rw [hpr] at ih
    rw [hpi] at ih
    rw [runLoop_progress w1 rem executed st hemp he hp,
      runLoop_progress w2 rem executed st hemp he2 hp2, hpi, ih]
  | case4 rem executed st hemp pr he hp =>
    have hpi := runPass_indep w1 w2 rem executed st
    have he2 : (runPass w2 rem executed st).err = none := by
      rw [← hpi]; exact he
    have hp2 : ¬(runPass w2 rem executed st).progress = true := by
      rw [← hpi]; exact hp
    rw [runLoop_stuck w1 rem executed st hemp he hp,
      runLoop_stuck w2 rem executed st hemp he2 hp2, hpi]

/-- Merging call variables does not change the run (handlers never read
the variable bag). -/
theorem executeSteps_vars_indep (w : Workflow)
    (vars : List (String × Value)) :
    executeSteps { w with vars := mergeVars w.vars vars } =
      executeSteps w := by
  simp only [executeSteps]
  exact runLoop_indep _ w w.steps [] ⟨[], []⟩

/-! ## Concrete evaluations of the fixtures -/

theorem execTrace_chainWf :
    execTrace chainWf =
      [⟨stepA, [], .success (.str "Task executed: Task 1")⟩,
       ⟨stepB, ["A"], .success (.str "Task executed: Task 2")⟩] := by
  simp [execTrace, executeSteps, chainWf, mkWf, runLoop, runPass,
    executeStep, executeTaskStep, depsMet, stopsOnError, mapSet]
  simp [stepA, stepB]

theorem executeSteps_stopWf :
    executeSteps stopWf =
      { state := { stepStatus := [("A", "failed")], stepResults := [] },
        executed := [],
        err := some (.unknownStepType "mystery"),
        trace := [⟨mysteryStop, [],
          .failure (.unknownStepType "mystery")⟩] } := by
  simp [executeSteps, stopWf, mkWf, mysteryStop, stepB, runLoop, runPass,
    executeStep, executeTaskStep, depsMet, stopsOnError, mapSet, loop]

theorem executeSteps_contWf :
    executeSteps contWf =
      { state :=
          { stepStatus := [("A", "failed"), ("B", "completed")],
            stepResults := [("B", .str "Task executed: Task 2")] },
        executed := ["B", "A"],
        err := none,
        trace :=
          [⟨mysteryContinue, [], .failure (.unknownStepType "mystery")⟩,
           ⟨stepB, ["A"], .success (.str "Task executed: Task 2")⟩] } := by
  simp [executeSteps, contWf, mkWf, mysteryContinue, stepB, runLoop,
    runPass, executeStep, executeTaskStep, depsMet, stopsOnError, mapSet,
    loop]

theorem executeSteps_retryWf :
    executeSteps retryWf =
      { state :=
          { stepStatus := [("A", "failed"), ("B", "completed")],
            stepResults := [("B", .str "Task executed: Task 2")] },
        executed := ["B", "A"],
        err := none,
        trace :=
          [⟨mysteryRetry, [], .failure (.unknownStepType "mystery")⟩,
           ⟨stepB, ["A"], .success (.str "Task executed: Task 2")⟩] } := by
  simp [executeSteps, retryWf, mkWf, mysteryRetry, stepB, runLoop,
    runPass, executeStep, executeTaskStep, depsMet, stopsOnError, mapSet,
    loop]

/-! ## Claim theorems -/

/-- Claim C1: the resolver loop of `executeSteps` terminates — the
bounded loop already finishes within `steps + 1` passes with the run's
result; a run that ends without error processed every step; and a step
waiting on a dependency id that no dispatchable step can supply (a self
dependency or a nonexistent id in particular) forces the run to end in
an error, which is the `CyclicOrUnmetDependency` error whenever every
step type is handled. -/
theorem executeSteps_terminates_and_detects_cycles (w : Workflow) :
    runLoopFuel w (w.steps.length + 1) w.steps [] ⟨[], []⟩ =
      some (executeSteps w) ∧
    ((executeSteps w).err = none →
      ∀ s ∈ w.steps, ∃ t ∈ (executeSteps w).trace, t.step = s) ∧
    (∀ (rem : List WorkflowStep) (executed : List String) (st : RunState),
      rem ≠ [] → (runPass w rem executed st).err = none →
      (runPass w rem executed st).progress = false →
      (runLoop w rem executed st).err = some .cyclicOrUnmet) ∧
    (∀ s ∈ w.steps, ∀ d ∈ s.dependencies,
      (∀ t ∈ w.steps, t.id = d → d ∈ t.dependencies) →
      (executeSteps w).err.isSome = true ∧
      ((∀ t ∈ w.steps, knownType t.type = true) →
        (executeSteps w).err = some .cyclicOrUnmet)) := by
  refine ⟨runLoopFuel_adequate w _ w.steps [] ⟨[], []⟩ (Nat.lt_succ_self _),
    fun h => runLoop_complete w w.steps [] ⟨[], []⟩ h, ?_, ?_⟩
  · intro rem executed st hne he hp
    rw [runLoop_stuck w rem executed st (by simpa using hne) he
      (by simp [hp])]
  intro s hs d hd hall
  have hbad := runLoop_badDep w d s w.steps [] ⟨[], []⟩ hs hd (by simp) hall
  refine ⟨hbad, fun hk => ?_⟩
  obtain ⟨e, he⟩ := Option.isSome_iff_exists.mp hbad
  have hcyc : e = .cyclicOrUnmet :=
    runLoop_err_known w w.steps [] ⟨[], []⟩ e hk he
  rw [← hcyc]
  exact he

/-- Witness for C1: the single-step workflow whose step depends on its
own id ends with the cycle/deadlock error. -/
theorem executeSteps_terminates_and_detects_cycles_witness :
    (executeSteps selfDepWf).err = some .cyclicOrUnmet :=
  ((executeSteps_terminates_and_detects_cycles selfDepWf).2.2.2 selfStep
    (by simp [selfDepWf, mkWf]) "S" (by simp [selfStep])
    (fun t ht => by
      simp only [selfDepWf, mkWf, List.mem_singleton] at ht
      subst ht
      simp [selfStep])).2
    (fun t ht => by
      simp only [selfDepWf, mkWf, List.mem_singleton] at ht
      subst ht
      simp [selfStep, knownType])

/-- Claim C2: ordering invariant — whenever a step is dispatched to its
handler, every id in its dependency set is already a member of the run's
executed set recorded at the moment of dispatch. -/
theorem dispatch_ordering_invariant (w : Workflow) :
    ∀ t ∈ execTrace w, ∀ d ∈ t.step.dependencies,
      d ∈ t.executedBefore := by
  intro t ht d hd
  have h := runLoop_trace_deps w w.steps [] ⟨[], []⟩ t ht
  simp only [depsMet, List.all_eq_true] at h
  exact List.mem_of_elem_eq_true (h d hd)

/-- Witness for C2: in the two-step chain, the dependent step is
dispatched with its dependency already executed. -/
theorem dispatch_ordering_invariant_witness :
    "A" ∈ (⟨stepB, ["A"], .success (.str "Task executed: Task 2")⟩ :
      TraceEntry).executedBefore :=
  dispatch_ordering_invariant chainWf
    ⟨stepB, ["A"], .success (.str "Task executed: Task 2")⟩
    (by rw [execTrace_chainWf]
        exact List.mem_cons_of_mem _ (List.mem_singleton.mpr rfl))
    "A" (by simp [stepB])

/-- Claim C3: a failing step under the stop (or unset) policy ends the
run at once — that dispatch is the last of the whole run, the step is
recorded failed, the handler's error is the run's terminal error and
the top-level status is Failed, and every id never dispatched stays
absent from the per-step status map. -/
theorem stop_policy_failure_halts (w : Workflow)
    (vars : List (String × Value)) (t0 : TraceEntry) (e0 : WFError)
    (ht0 : t0 ∈ execTrace w) (hfail : t0.outcome = .failure e0)
    (hstop : stopsOnError t0.step.onError = true) :
    (∃ pre, execTrace w = pre ++ [t0] ∧
      ∀ t ∈ pre, isStopFailure t = false) ∧
    (executeSteps w).err = some e0 ∧
    (executeSteps w).state.stepStatus.lookup t0.step.id = some "failed" ∧
    (∀ s ∈ w.steps, (∀ t ∈ execTrace w, t.step.id ≠ s.id) →
      (executeSteps w).state.stepStatus.lookup s.id = none) ∧
    (runWorkflow w vars).status = "failed" ∧
    (runWorkflow w vars).err = some e0 := by
  have hsf : isStopFailure t0 = true := by
    simp [isStopFailure, hfail, hstop]
  have habsent : ∀ s ∈ w.steps, (∀ t ∈ execTrace w, t.step.id ≠ s.id) →
      (executeSteps w).state.stepStatus.lookup s.id = none := by
    intro s _ havoid
    have h := runLoop_status_untouched w w.steps [] ⟨[], []⟩ s.id
      (fun t ht => havoid t ht)
    simpa using h
  cases he : (executeSteps w).err with
  | none =>
    have := runLoop_clean_of_err_none w w.steps [] ⟨[], []⟩ he t0 ht0
    rw [hsf] at this
    exact absurd this (by simp)
  | some e =>
    rcases runLoop_err_decomp w w.steps [] ⟨[], []⟩ e he with
      ⟨_, hclean⟩ | ⟨pre, entry, h1, h2, h3, h4, h5⟩
    · have := hclean t0 ht0
      rw [hsf] at this
      exact absurd this (by simp)
    · have ht0' : t0 ∈ pre ++ [entry] := h1 ▸ ht0
      have hteq : t0 = entry := by
        rcases List.mem_append.mp ht0' with hpre | hl
        · have := h4 t0 hpre
          rw [hsf] at this
          exact absurd this (by simp)
        · exact List.mem_singleton.mp hl
      subst hteq
      have hee : e = e0 := by
        rw [h2] at hfail
        exact (StepOutcome.failure.injEq _ _).mp hfail
      subst hee
      have hwerr : (runWorkflow w vars).err = some e := by
        simp only [runWorkflow]
        rw [executeSteps_vars_indep w vars]
        exact he
      refine ⟨⟨pre, h1, h4⟩, rfl, h5, habsent, ?_, hwerr⟩
      simp only [runWorkflow]
      rw [executeSteps_vars_indep w vars, he]
      rfl

/-- Witness for C3: the fixture whose first step fails under the unset
policy yields a failed run in which the dependent step is never recorded
in the status map. -/
theorem stop_policy_failure_halts_witness :
    (runWorkflow stopWf []).status = "failed" ∧
    (executeSteps stopWf).state.stepStatus.lookup "B" = none := by
  have h := stop_policy_failure_halts stopWf []
    ⟨mysteryStop, [], .failure (.unknownStepType "mystery")⟩
    (.unknownStepType "mystery")
    (by rw [show execTrace stopWf = (executeSteps stopWf).trace from rfl,
          executeSteps_stopWf]
        simp)
    rfl rfl
  refine ⟨h.2.2.2.2.1, ?_⟩
  exact h.2.2.2.1 stepB (by simp [stopWf, mkWf])
    (by rw [show execTrace stopWf = (executeSteps stopWf).trace from rfl,
          executeSteps_stopWf]
        intro t ht
        simp only [List.mem_singleton] at ht
        subst ht
        simp [mysteryStop, stepB])

/-- The top-level status is `"failed"` exactly when the run has a
terminal error, and is otherwise `"completed"`. -/
theorem runWorkflow_status_iff (w : Workflow)
    (vars : List (String × Value)) :
    ((runWorkflow w vars).status = "failed" ↔
      (runWorkflow w vars).err.isSome = true) ∧
    ((runWorkflow w vars).status = "failed" ∨
      (runWorkflow w vars).status = "completed") := by
  simp only [runWorkflow]
  cases herr : (executeSteps
      { w with vars := mergeVars w.vars vars }).err <;> simp [herr]

/-- Claim C4: a failing step under the continue policy is recorded
failed yet still joins the executed set, so its dependents' dependency
checks are no longer blocked by it and the run proceeds; in the
two-step fixture (`A` fails with continue policy, `B` depends on `A`)
the dependent still executes and the run ends without error. -/
theorem continue_policy_failure_tolerated (w : Workflow)
    (t0 : TraceEntry) (e0 : WFError)
    (hnd : (w.steps.map (fun s => s.id)).Nodup)
    (ht0 : t0 ∈ execTrace w) (hfail : t0.outcome = .failure e0)
    (hcont : t0.step.onError = "continue") :
    (executeSteps w).state.stepStatus.lookup t0.step.id = some "failed" ∧
    t0.step.id ∈ (executeSteps w).executed ∧
    (executeSteps contWf).err = none ∧
    (executeSteps contWf).state.stepStatus.lookup "B" = some "completed" ∧
    (executeSteps contWf).state.stepStatus.lookup "A" = some "failed" := by
  have hsf : isStopFailure t0 = false := by
    simp [isStopFailure, hfail, stopsOnError, hcont]
  refine ⟨?_,
    runLoop_executed_of_trace w w.steps [] ⟨[], []⟩ t0 ht0 hsf, ?_, ?_, ?_⟩
  · have h := runLoop_status_of_trace w w.steps [] ⟨[], []⟩ hnd t0 ht0
    rw [hfail] at h
    exact h
  · rw [executeSteps_contWf]
  · rw [executeSteps_contWf]
    rfl
  · rw [executeSteps_contWf]
    rfl

/-- Witness for C4: in the fixture run, the continue-policy failure on
`A` is recorded failed and `A` still enters the executed set. -/
theorem continue_policy_failure_tolerated_witness :
    (executeSteps contWf).state.stepStatus.lookup "A" = some "failed" ∧
    "A" ∈ (executeSteps contWf).executed := by
  have h := continue_policy_failure_tolerated contWf
    ⟨mysteryContinue, [], .failure (.unknownStepType "mystery")⟩
    (.unknownStepType "mystery")
    (by simp [contWf, mkWf, mysteryContinue, stepB])
    (by rw [show execTrace contWf = (executeSteps contWf).trace from rfl,
          executeSteps_contWf]
        simp)
    rfl rfl
  exact ⟨h.1, h.2.1⟩

/-- Counterexample for C4 as literally stated: in `badContWf` the step
`A` fails under the continue policy, yet its dependent `B` — which also
waits on the nonexistent id `Z` — never becomes runnable and is never
dispatched; the run ends with the cycle/unmet-dependency error instead.
So a Continue-policy failure does not make every dependent execute. -/
theorem continue_policy_dependents_counterexample :
    (∃ t ∈ execTrace badContWf, t.step.onError = "continue" ∧
      t.outcome = .failure (.unknownStepType "mystery")) ∧
    stepBZ ∈ badContWf.steps ∧ "A" ∈ stepBZ.dependencies ∧
    (∀ t ∈ execTrace badContWf, t.step.id ≠ "B") ∧
    (executeSteps badContWf).err = some .cyclicOrUnmet := by
  have heval : executeSteps badContWf =
      { state := { stepStatus := [("A", "failed")], stepResults := [] },
        executed := ["A"],
        err := some .cyclicOrUnmet,
        trace := [⟨mysteryContinue, [],
          .failure (.unknownStepType "mystery")⟩] } := by
    simp [executeSteps, badContWf, mkWf, mysteryContinue, stepBZ, runLoop,
      runPass, executeStep, executeTaskStep, depsMet, stopsOnError,
      mapSet, loop]
  refine ⟨?_, by simp [badContWf, mkWf], by simp [stepBZ], ?_, ?_⟩
  · rw [show execTrace badContWf = (executeSteps badContWf).trace from rfl,
      heval]
    exact ⟨_, List.mem_singleton.mpr rfl, rfl, rfl⟩
  · rw [show execTrace badContWf = (executeSteps badContWf).trace from rfl,
      heval]
    intro t ht
    rcases List.mem_singleton.mp ht with rfl
    simp [mysteryContinue]
  · rw [heval]

/-- Claim C5: a step of one of the six handled types never fails its
handler, an unknown type always fails with the `UnknownStepType` error,
and a run's terminal error can only be the cycle/deadlock error or an
`UnknownStepType` failure on a stop-policy step — the only two ways the
top-level status becomes Failed with a populated terminal error. -/
theorem run_failure_causes (w : Workflow) (vars : List (String × Value)) :
    (∀ s : WorkflowStep, (knownType s.type = true →
        ∃ v, executeStep w s = .ok v) ∧
      (knownType s.type = false →
        executeStep w s = .error (.unknownStepType s.type))) ∧
    ((runWorkflow w vars).status = "failed" ↔
      (runWorkflow w vars).err.isSome = true) ∧
    (∀ e, (runWorkflow w vars).err = some e →
      e = .cyclicOrUnmet ∨
        ∃ s ∈ w.steps, stopsOnError s.onError = true ∧
          knownType s.type = false ∧ e = .unknownStepType s.type) := by
  refine ⟨fun s => ⟨executeStep_known w s, executeStep_unknown w s⟩,
    (runWorkflow_status_iff w vars).1, ?_⟩
  intro e he
  simp only [runWorkflow] at he
  rw [executeSteps_vars_indep w vars] at he
  rcases runLoop_err_elim w w.steps [] ⟨[], []⟩ e he with h | ⟨t, ht, h1, h2⟩
  · exact Or.inl h
  · right
    obtain ⟨hk, he2⟩ := (executeStep_error_iff w t e).mp h2
    exact ⟨t, ht, h1, hk, he2⟩

/-- Witness for C5: the stop-policy fixture's terminal error is
accounted for by its unknown-type stop-policy step. -/
theorem run_failure_causes_witness :
    WFError.unknownStepType "mystery" = .cyclicOrUnmet ∨
      ∃ s ∈ stopWf.steps, stopsOnError s.onError = true ∧
        knownType s.type = false ∧
        WFError.unknownStepType "mystery" = .unknownStepType s.type :=
  (run_failure_causes stopWf []).2.2 (.unknownStepType "mystery")
    (by simp only [runWorkflow]
        rw [executeSteps_vars_indep stopWf [], executeSteps_stopWf])

/-- Claim C6: `ExecuteWorkflow` returns a call-level error exactly for
an unregistered id (`NotFound`); for a registered workflow it returns
the completed record with no call-level error even when the run failed,
and run failure is visible only through the record's status being
Failed together with its populated error field. -/
theorem executeWorkflow_call_errors_only_notFound
    (reg : List (String × Workflow)) (wid : String)
    (vars : List (String × Value)) :
    (reg.lookup wid = none →
      ExecuteWorkflow reg wid vars = .error (.notFound wid)) ∧
    (∀ w, reg.lookup wid = some w →
      ExecuteWorkflow reg wid vars = .ok (runWorkflow w vars) ∧
      ((runWorkflow w vars).status = "failed" ↔
        (runWorkflow w vars).err.isSome = true) ∧
      ((runWorkflow w vars).status = "failed" ∨
        (runWorkflow w vars).status = "completed")) := by
  constructor
  · intro h
    simp [ExecuteWorkflow, h]
  · intro w h
    exact ⟨by simp [ExecuteWorkflow, h], (runWorkflow_status_iff w vars).1,
      (runWorkflow_status_iff w vars).2⟩

/-- Witness for C6: an unregistered id yields the `NotFound` call error;
a registered one yields the run record with no call error. -/
theorem executeWorkflow_call_errors_only_notFound_witness :
    ExecuteWorkflow [("id-1", wfOne)] "missing" [] =
      .error (.notFound "missing") ∧
    ExecuteWorkflow [("id-1", wfOne)] "id-1" [] =
      .ok (runWorkflow wfOne []) :=
  ⟨(executeWorkflow_call_errors_only_notFound [("id-1", wfOne)]
      "missing" []).1 rfl,
   ((executeWorkflow_call_errors_only_notFound [("id-1", wfOne)]
      "id-1" []).2 wfOne rfl).1⟩

/-- Claim C7: dispatch routes a Loop-type step to the loop handler, and
a loop step configured for three iterations succeeds with exactly the
three ordered per-iteration strings. -/
theorem loop_step_dispatch (w : Workflow) (s : WorkflowStep)
    (h : s.type = loop) :
    executeStep w s = .ok (executeLoopStep w s) ∧
    (s.config.iterations = some 3 →
      executeStep w s = .ok (.vlist [.str "Loop iteration 1",
        .str "Loop iteration 2", .str "Loop iteration 3"])) := by
  have hdisp : executeStep w s = .ok (executeLoopStep w s) := by
    simp [executeStep, h, loop]
  refine ⟨hdisp, fun h3 => ?_⟩
  rw [hdisp]
  have hloop : executeLoopStep w s = .vlist [.str "Loop iteration 1",
      .str "Loop iteration 2", .str "Loop iteration 3"] := by
    simp only [executeLoopStep, h3]
    rfl
  rw [hloop]

/-- Witness for C7: the three-iteration loop fixture. -/
theorem loop_step_dispatch_witness :
    executeStep (mkWf []) loopStep3 =
      .ok (.vlist [.str "Loop iteration 1", .str "Loop iteration 2",
        .str "Loop iteration 3"]) :=
  (loop_step_dispatch (mkWf []) loopStep3 rfl).2 rfl

/-- Claim C8: a parallel step never fails — it dispatches to the
parallel handler, whose aggregate for branch count `n` holds exactly one
output per branch, in branch order (the source hard-codes `n = 3`), and
zero branches yield an empty aggregate rather than an error. -/
theorem parallel_step_aggregate (w : Workflow) (s : WorkflowStep) :
    (s.type = "parallel" →
      executeStep w s = .ok (executeParallelStep w s)) ∧
    executeParallelStep w s = .vlist (parallelAggregate sourceTaskCount) ∧
    (∀ n : Nat, (parallelAggregate n).length = n ∧
      ∀ (i : Nat) (hi : i < (parallelAggregate n).length),
        (parallelAggregate n).get ⟨i, hi⟩ = parallelBranchOutput i) ∧
    parallelAggregate 0 = [] := by
  refine ⟨fun h => ?_, rfl, fun n => ⟨by simp [parallelAggregate], ?_⟩, rfl⟩
  · simp [executeStep, h, loop]
  · intro i hi
    simp [parallelAggregate, List.get_eq_getElem]

/-- Witness for C8: the parallel fixture dispatches cleanly and the
three-branch aggregate has one output per branch. -/
theorem parallel_step_aggregate_witness :
    executeStep (mkWf []) parStep =
      .ok (executeParallelStep (mkWf []) parStep) ∧
    (parallelAggregate 3).length = 3 ∧
    (parallelAggregate 3).get ⟨0, by decide⟩ = parallelBranchOutput 0 :=
  ⟨(parallel_step_aggregate (mkWf []) parStep).1 rfl,
   ((parallel_step_aggregate (mkWf []) parStep).2.2.1 3).1,
   ((parallel_step_aggregate (mkWf []) parStep).2.2.1 3).2 0 (by decide)⟩

/-- Rewriting retry to continue leaves the whole run's observables
unchanged. -/
theorem executeSteps_retryToContinue (w : Workflow) :
    (executeSteps (retryToContinue w)).err = (executeSteps w).err ∧
    (executeSteps (retryToContinue w)).state = (executeSteps w).state := by
  have h := runLoop_retry w (retryToContinue w) w.steps [] ⟨[], []⟩
  exact ⟨h.1, h.2.1⟩

/-- Claim C9: the retry policy is exactly equivalent to continue —
rewriting every retry policy to continue yields an identical execution
record (status, per-step statuses, outputs, terminal error); a failing
retry step still joins the executed set; and with unique step ids no
step is ever dispatched twice, so nothing is re-attempted. -/
theorem retry_policy_equals_continue (w : Workflow)
    (vars : List (String × Value)) :
    runWorkflow (retryToContinue w) vars = runWorkflow w vars ∧
    (∀ (pre post : List WorkflowStep) (s : WorkflowStep),
      w.steps = pre ++ s :: post → s.onError = "retry" →
      runWorkflow
        { w with steps := pre ++ { s with onError := "continue" } :: post }
        vars = runWorkflow w vars) ∧
    (∀ t0 ∈ execTrace w, ∀ e0 : WFError, t0.outcome = .failure e0 →
      t0.step.onError = "retry" →
        t0.step.id ∈ (executeSteps w).executed) ∧
    ((w.steps.map (fun s => s.id)).Nodup →
      ((execTrace w).map (fun t => t.step.id)).Nodup) := by
  have hmain : ∀ u : Workflow,
      runWorkflow (retryToContinue u) vars = runWorkflow u vars := by
    intro u
    have h := executeSteps_retryToContinue
      { u with vars := mergeVars u.vars vars }
    have he : (executeSteps { retryToContinue u with
        vars := mergeVars (retryToContinue u).vars vars }).err =
        (executeSteps { u with vars := mergeVars u.vars vars }).err := h.1
    have hst : (executeSteps { retryToContinue u with
        vars := mergeVars (retryToContinue u).vars vars }).state =
        (executeSteps { u with vars := mergeVars u.vars vars }).state := h.2
    simp only [runWorkflow, ExecResult.mk.injEq]
    rw [he, hst]
    exact ⟨rfl, rfl, rfl, rfl, rfl⟩
  refine ⟨hmain w, ?_, ?_,
    fun hnd => runLoop_trace_ids_nodup w w.steps [] ⟨[], []⟩ hnd⟩
  · intro pre post s hsteps hretry
    have hstep_eq : retryToContinueStep { s with onError := "continue" } =
        retryToContinueStep s := by
      simp [retryToContinueStep, hretry]
    have hkey : retryToContinue
        { w with steps := pre ++ { s with onError := "continue" } :: post } =
        retryToContinue w := by
      simp only [retryToContinue, hsteps]
      congr 1
      simp [List.map_append, hstep_eq]
    have h1 := hmain
      { w with steps := pre ++ { s with onError := "continue" } :: post }
    rw [hkey] at h1
    rw [← h1]
    exact hmain w
  · intro t0 ht0 e0 hfail hretry
    have hsf : isStopFailure t0 = false := by
      simp [isStopFailure, hfail, stopsOnError, hretry]
    exact runLoop_executed_of_trace w w.steps [] ⟨[], []⟩ t0 ht0 hsf

/-- Witness for C9: the retry fixture runs identically to its
continue-rewritten form, and its failing retry step is in the executed
set. -/
theorem retry_policy_equals_continue_witness :
    runWorkflow (retryToContinue retryWf) [] = runWorkflow retryWf [] ∧
    "A" ∈ (executeSteps retryWf).executed := by
  have h := retry_policy_equals_continue retryWf []
  refine ⟨h.1, ?_⟩
  exact h.2.2.1 ⟨mysteryRetry, [], .failure (.unknownStepType "mystery")⟩
    (by rw [show execTrace retryWf = (executeSteps retryWf).trace from rfl,
          executeSteps_retryWf]
        simp)
    (.unknownStepType "mystery") rfl rfl

/-- Two registry bindings per registered workflow. -/
theorem flat_pairs_length (ws : List Workflow) :
    (ws.flatMap (fun u => [(u.id, u), (u.name, u)])).length =
      2 * ws.length := by
  induction ws with
  | nil => simp
  | cons w rest ih =>
    simp [List.flatMap_cons, ih]
    omega

/-- The keys of the appended bindings are the id/name key list. -/
theorem flat_pairs_keys (ws : List Workflow) :
    (ws.flatMap (fun u => [(u.id, u), (u.name, u)])).map Prod.fst =
      ws.flatMap (fun u => [u.id, u.name]) := by
  induction ws with
  | nil => rfl
  | cons w rest ih =>
    simp [List.flatMap_cons, ih]

/-- Claim C10: registration always succeeds and stores the definition
under both its id and its name, so a registered workflow (with a
supplied id) executes under either key; a single registration into an
empty registry lists the definition twice, and registering a batch with
pairwise distinct keys makes the registry twice as long as the batch. -/
theorem register_dual_key (genId : String)
    (reg : List (String × Workflow)) (w : Workflow) (ws : List Workflow)
    (vars : List (String × Value)) :
    (RegisterWorkflow genId reg w).2 = none ∧
    (w.id ≠ "" →
      (RegisterWorkflow genId reg w).1.lookup w.id = some w ∧
      (RegisterWorkflow genId reg w).1.lookup w.name = some w ∧
      ExecuteWorkflow (RegisterWorkflow genId reg w).1 w.id vars =
        .ok (runWorkflow w vars) ∧
      ExecuteWorkflow (RegisterWorkflow genId reg w).1 w.name vars =
        .ok (runWorkflow w vars)) ∧
    (w.id ≠ "" → w.name ≠ w.id →
      (RegisterWorkflow genId [] w).1 = [(w.id, w), (w.name, w)] ∧
      ListWorkflows (RegisterWorkflow genId [] w).1 = [w, w]) ∧
    ((∀ u ∈ ws, u.id ≠ "") →
      (ws.flatMap (fun u => [u.id, u.name])).Nodup →
      (ListWorkflows (registerAll ws [])).length = 2 * ws.length ∧
      ∀ u ∈ ws, (registerAll ws []).lookup u.id = some u ∧
        (registerAll ws []).lookup u.name = some u) := by
  refine ⟨rfl, ?_, ?_, ?_⟩
  · intro hid
    have hname : (RegisterWorkflow genId reg w).1.lookup w.name =
        some w := by
      simp only [RegisterWorkflow, if_neg hid]
      exact lookup_mapSet_self _ _ _
    have hidl : (RegisterWorkflow genId reg w).1.lookup w.id = some w := by
      simp only [RegisterWorkflow, if_neg hid]
      by_cases hn : w.name = w.id
      · rw [hn]
        exact lookup_mapSet_self _ _ _
      · rw [lookup_mapSet_ne _ _ _ _ (fun he => hn he.symm)]
        exact lookup_mapSet_self _ _ _
    refine ⟨hidl, hname, ?_, ?_⟩
    · simp only [ExecuteWorkflow]
      rw [hidl]
    · simp only [ExecuteWorkflow]
      rw [hname]
  · intro hid hne
    have h1 : (RegisterWorkflow genId [] w).1 = [(w.id, w), (w.name, w)] := by
      simp only [RegisterWorkflow, if_neg hid]
      have hne' : ¬w.id = w.name := fun h => hne h.symm
      simp [mapSet, hne']
    exact ⟨h1, by rw [h1]; rfl⟩
  · intro hids hnd
    have happ := registerAll_append ws [] hids (by simpa using hnd)
    rw [List.nil_append] at happ
    have hkeys : ((ws.flatMap
        (fun u => [(u.id, u), (u.name, u)])).map Prod.fst).Nodup := by
      rw [flat_pairs_keys]
      exact hnd
    refine ⟨?_, ?_⟩
    · rw [happ]
      simp only [ListWorkflows, List.length_map]
      exact flat_pairs_length ws
    · intro u hu
      constructor
      · rw [happ]
        exact lookup_of_mem_nodup _ _ _ hkeys
          (List.mem_flatMap.mpr ⟨u, hu, by simp⟩)
      · rw [happ]
        exact lookup_of_mem_nodup _ _ _ hkeys
          (List.mem_flatMap.mpr ⟨u, hu, by simp⟩)

/-- Witness for C10: registering the two distinct-key fixtures yields a
four-entry registry in which the second workflow is found under its
name. -/
theorem register_dual_key_witness :
    (ListWorkflows (registerAll [wfOne, wfTwo] [])).length = 4 ∧
    (registerAll [wfOne, wfTwo] []).lookup "name-2" = some wfTwo := by
  have h := (register_dual_key "g" [] wfOne [wfOne, wfTwo] []).2.2.2
    (by intro u hu
        rcases List.mem_cons.mp hu with rfl | hu'
        · simp [wfOne]
        · rcases List.mem_singleton.mp hu' with rfl
          simp [wfTwo])
    (by simp [List.flatMap_cons, wfOne, wfTwo])
  exact ⟨h.1, (h.2 wfTwo (by simp)).2⟩

end QuickBot
